import Mathlib

/-!
Verification of the market-data core of the `console` repository
(`src/fasttraders`): the time-series normalizer (`data/converter.py`),
the candle cache and refresh orchestrator (`exchange.py`), the scheduler
(`worker.py`) and the notification fan-out (`rpc/manager.py`).

Modelling conventions:
* A pandas `DataFrame` of candles is a `List Row`; the `date` column is an
  integer timestamp (the unit — seconds or milliseconds — is carried by the
  grid step argument, mirroring how the source pairs a frame with a
  timeframe string), prices and volumes are rationals (Python floats are
  treated as exact numbers; none of the verified claims depends on
  floating-point rounding).
* Python dicts keyed by `(pair, timeframe, candle_type)` are association
  lists with a lookup that returns the first (unique) binding.
* Wall-clock time (`time.time()`, `datetime.now`) is passed explicitly as a
  parameter; `time.sleep` is modelled by advancing that parameter.
* Integer division and modulo by positive divisors use `Int`'s `/` and `%`,
  which agree with Python's `//` and `%` for positive divisors.
-/

set_option autoImplicit false

namespace FastTraders

/-- One OHLCV candle row, the model of one row of the source's dataframes
with columns `date, open, high, low, close, volume`
(`DEFAULT_DATAFRAME_COLUMNS` in `constants.py`).  Field names are
abbreviated: `o`/`h`/`l`/`c`/`v` stand for open/high/low/close/volume. -/
structure Row where
  date : Int
  o : ℚ
  h : ℚ
  l : ℚ
  c : ℚ
  v : ℚ
  deriving DecidableEq, Repr

/-- Pandas `'first'` aggregation over a group's column (group nonempty in
all uses; `0` is a junk default for the empty group). -/
def firstD (xs : List ℚ) : ℚ := xs.headD 0

/-- Pandas `'last'` aggregation over a group's column. -/
def lastD (xs : List ℚ) : ℚ := xs.getLastD 0

/-- Pandas `'max'` aggregation over a group's column. -/
def qmax (xs : List ℚ) : ℚ :=
  match xs with
  | [] => 0
  | x :: rest => rest.foldl max x

/-- Pandas `'min'` aggregation over a group's column. -/
def qmin (xs : List ℚ) : ℚ :=
  match xs with
  | [] => 0
  | x :: rest => rest.foldl min x

/-- Pandas `'sum'` aggregation over a group's column (sum of an empty group
is `0`, which is how resampling's `'sum'` fills bins with no data). -/
def qsum (xs : List ℚ) : ℚ := xs.foldl (· + ·) 0

/-- Insert a date into a sorted duplicate-free list of dates, keeping it
sorted and duplicate-free.  Folding this over the rows reproduces the
sorted group keys of `data.groupby(by='date', as_index=False, sort=True)`. -/
def insertSortedU (x : Int) : List Int → List Int
  | [] => [x]
  | y :: ys =>
    if x < y then x :: y :: ys
    else if x = y then y :: ys
    else y :: insertSortedU x ys

/-- The sorted list of distinct `date` values of a frame: the group keys of
the `groupby` in `clean_ohlcv_dataframe`. -/
def sortedUniqueDates (rows : List Row) : List Int :=
  rows.foldr (fun r acc => insertSortedU r.date acc) []

/-- The rows of a frame sharing a given date, in frame order: one group of
the `groupby` in `clean_ohlcv_dataframe`. -/
def dateGroup (rows : List Row) (d : Int) : List Row :=
  rows.filter (fun r => decide (r.date = d))

/-- The aggregation dict of the dedup `groupby` in
`clean_ohlcv_dataframe` (converter.py lines 74-81):
`open: first, high: max, low: min, close: last, volume: max`. -/
def aggGroup (d : Int) (g : List Row) : Row :=
  { date := d
    o := firstD (g.map Row.o)
    h := qmax (g.map Row.h)
    l := qmin (g.map Row.l)
    c := lastD (g.map Row.c)
    v := qmax (g.map Row.v) }

/-- `data.groupby(by='date', as_index=False, sort=True).agg({...})`:
one aggregated row per distinct date, dates sorted ascending. -/
def groupbyAggDate (rows : List Row) : List Row :=
  (sortedUniqueDates rows).map (fun d => aggGroup d (dateGroup rows d))

/-- The rows falling into resample bin number `k` of width `step` anchored
at `origin`, i.e. rows with `origin + step*k ≤ date < origin + step*(k+1)`. -/
def binGroup (rows : List Row) (step origin : Int) (k : Nat) : List Row :=
  rows.filter (fun r =>
    decide (origin + step * k ≤ r.date) && decide (r.date < origin + step * (k + 1)))

/-- The aggregation dict of the resample in `ohlcv_fill_up_missing_data`
(converter.py lines 103-112): `open: first, high: max, low: min,
close: last, volume: sum` (note `sum`, unlike the dedup step's `max`). -/
def aggBin (d : Int) (g : List Row) : Row :=
  { date := d
    o := firstD (g.map Row.o)
    h := qmax (g.map Row.h)
    l := qmin (g.map Row.l)
    c := lastD (g.map Row.c)
    v := qsum (g.map Row.v) }

/-- The forward-filled `close` at bin `k`: `df['close'].ffill()` in
`ohlcv_fill_up_missing_data`.  A bin with data contributes its own last
close; an empty bin inherits the value from the previous bin.  Bin `0`
always contains the minimal date, so the base case is never an empty bin. -/
def ffillClose (rows : List Row) (step origin : Int) : Nat → ℚ
  | 0 => lastD ((binGroup rows step origin 0).map Row.c)
  | k + 1 =>
    let g := binGroup rows step origin (k + 1)
    if g.isEmpty then ffillClose rows step origin k
    else lastD (g.map Row.c)

/-- One output row of `ohlcv_fill_up_missing_data` at bin `k`: a bin with
data keeps its aggregation; an empty bin becomes a synthesized row whose
`open`, `high`, `low`, `close` all equal the forward-filled close
(`fillna` with the ffilled `close` column) and whose volume is the sum of
an empty group, i.e. `0`. -/
def fillRowAt (rows : List Row) (step origin : Int) (k : Nat) : Row :=
  let d := origin + step * k
  let g := binGroup rows step origin k
  if g.isEmpty then
    let pc := ffillClose rows step origin k
    { date := d, o := pc, h := pc, l := pc, c := pc, v := 0 }
  else aggBin d g

/-- Minimum of the `date` column (frame nonempty, split as `r0 :: rs`). -/
def minDate (r0 : Row) (rs : List Row) : Int :=
  rs.foldl (fun m r => min m r.date) r0.date

/-- Maximum of the `date` column (frame nonempty, split as `r0 :: rs`). -/
def maxDate (r0 : Row) (rs : List Row) : Int :=
  rs.foldl (fun m r => max m r.date) r0.date

/-- `ohlcv_fill_up_missing_data(dataframe, timeframe, pair)`
(converter.py lines 93-138): resample onto the regular grid of width
`step` (the timeframe's length in the `date` unit), aggregate bins with
`first/max/min/last/sum`, forward-fill `close`, substitute the filled
close for missing `open`/`high`/`low`, zero the missing volumes.  The grid
is anchored at `origin`, the grid point at or below the minimal date
(pandas aligns resample bins to the start of the day of the first sample;
for steps dividing a day this is exactly the floor of the minimal date to
a multiple of `step`).  The logging of the fill fraction (lines 124-137)
has no effect on the returned frame and is not modelled. -/
def ohlcv_fill_up_missing_data (dataframe : List Row) (step : Int) : List Row :=
  match dataframe with
  | [] => []
  | r0 :: rs =>
    let dmin := minDate r0 rs
    let dmax := maxDate r0 rs
    let origin := dmin - dmin % step
    let n := ((dmax - origin) / step).toNat + 1
    (List.range n).map (fillRowAt (r0 :: rs) step origin)

/-- `clean_ohlcv_dataframe(data, timeframe, pair, *, fill_missing,
drop_incomplete)` (converter.py lines 56-90): dedup by date via the
sorted `groupby`, drop the last candle if `drop_incomplete`, then fill
gaps if `fill_missing`.  The `pair` argument only feeds log messages and
is dropped; the `timeframe` string is represented by its grid width
`step` in the unit of the `date` column. -/
def clean_ohlcv_dataframe (data : List Row) (step : Int)
    (fill_missing drop_incomplete : Bool) : List Row :=
  let deduped := groupbyAggDate data
  let deduped := if drop_incomplete then deduped.dropLast else deduped
  if fill_missing then ohlcv_fill_up_missing_data deduped step else deduped

/-- `ohlcv_to_dataframe(ohlcv, timeframe, pair, *, fill_missing,
drop_incomplete)` (converter.py lines 16-53): build the frame from the
tick list and clean it.  The dtype conversions are identities in the
rational model, so this is `clean_ohlcv_dataframe` on the ticks. -/
def ohlcv_to_dataframe (ohlcv : List Row) (step : Int)
    (fill_missing drop_incomplete : Bool) : List Row :=
  clean_ohlcv_dataframe ohlcv step fill_missing drop_incomplete

instance : Inhabited Row := ⟨⟨0, 0, 0, 0, 0, 0⟩⟩

/-- The `'last'`-aggregated close over all input rows sharing period-start
`T` — the close of the single deduplicated row that `clean` outputs at
`T`.  Used to state the gap-fill property. -/
def dedupCloseAt (rows : List Row) (T : Int) : ℚ :=
  lastD ((dateGroup rows T).map Row.c)

/-! ### Timeframe arithmetic (`ultis/timeframe.py`)

Timestamps are integers; functions suffixed `_ts` return the integer
`timestamp()` of the corresponding `datetime` in the source.  All
divisors in use are positive, where Lean's `Int` `/` and `%` coincide
with Python's `//` and `%`. -/

/-- Digit-string parsing, the model of Python's `int(...)` on the digit
strings that timeframes use (Python's `int` also accepts signs and
surrounding whitespace, which no timeframe string contains; a
non-numeric string raises `ValueError`, modelled as `none`). -/
def digitsToNat : List Char → Option Nat
  | [] => none
  | cs =>
    cs.foldl (fun acc ch =>
      match acc with
      | none => none
      | some n => if ch.isDigit then some (n * 10 + (ch.toNat - '0'.toNat)) else none)
      (some 0)

/-- `parse_timeframe(timeframe)` (timeframe.py lines 109-128):
`int(timeframe[0:-1])` scaled by the unit letter; an unsupported unit
raises `ValueError`, modelled as `none`. -/
def parse_timeframe (timeframe : String) : Option Int :=
  match digitsToNat (timeframe.dropRight 1).toList with
  | none => none
  | some amount =>
    let unit := timeframe.back
    if unit = 'y' then some (amount * (60 * 60 * 24 * 365))
    else if unit = 'M' then some (amount * (60 * 60 * 24 * 30))
    else if unit = 'w' then some (amount * (60 * 60 * 24 * 7))
    else if unit = 'd' then some (amount * (60 * 60 * 24))
    else if unit = 'h' then some (amount * (60 * 60))
    else if unit = 'm' then some (amount * 60)
    else if unit = 's' then some (amount * 1)
    else none

/-- `timeframe_to_seconds`; the `ValueError` case defaults to `0` (all
theorems below only use parsable timeframes). -/
def timeframe_to_seconds (timeframe : String) : Int :=
  (parse_timeframe timeframe).getD 0

/-- `timeframe_to_minutes`: seconds floor-divided by 60. -/
def timeframe_to_minutes (timeframe : String) : Int :=
  timeframe_to_seconds timeframe / 60

/-- `timeframe_to_msecs`. -/
def timeframe_to_msecs (timeframe : String) : Int :=
  timeframe_to_seconds timeframe * 1000

/-- `int(timeframe_to_prev_date(timeframe, now).timestamp())`: the open
time, in epoch seconds, of the candle containing `nowMs` (epoch
milliseconds) — `round_timeframe(..., ROUND_DOWN) // 1000`. -/
def timeframe_to_prev_ts (timeframe : String) (nowMs : Int) : Int :=
  (nowMs - nowMs % (timeframe_to_seconds timeframe * 1000)) / 1000

/-- `int(timeframe_to_next_date(timeframe, now).timestamp())`:
`round_timeframe(..., ROUND_UP) // 1000`; note the source adds a full
interval even when `nowMs` is already aligned. -/
def timeframe_to_next_ts (timeframe : String) (nowMs : Int) : Int :=
  (nowMs - nowMs % (timeframe_to_seconds timeframe * 1000) +
    timeframe_to_seconds timeframe * 1000) / 1000

/-- `date_minus_candles(timeframe, candle_count, now).timestamp()`
(timeframe.py lines 211-226): the previous candle boundary minus
`candle_count` candles of `timeframe_to_minutes` minutes each (negative
counts move forward). -/
def date_minus_candles_ts (timeframe : String) (candle_count : Int) (nowMs : Int) : Int :=
  timeframe_to_prev_ts timeframe nowMs - timeframe_to_minutes timeframe * 60 * candle_count

/-! ### Candle cache and refresh orchestrator (`exchange.py`)

The `Exchange` instance's mutable state is `ExchangeState`; the
configuration attributes set in `Exchange.__init__` are constants.
Python dicts keyed by `(pair, timeframe, candle_type)` are association
lists (unique keys); `set(pairs)` iteration is modelled by
`List.eraseDups` (the claims below use singleton pair lists, for which
the set's iteration order is immaterial).  Wall-clock "now" is the
explicit `nowMs` parameter.  The network is an oracle
`fetch : Job → Except String (List Row)`: a `Job` describes one built
coroutine, and a `.error` result models a fetch task that raised. -/

/-- `CandleType` (`enums/candletype.py`). -/
inductive CandleType where
  | spot
  | futures
  | mark
  | index
  deriving DecidableEq, Repr

/-- `PairWithTimeframe` (`constants.py`): `(pair, timeframe, candle_type)`. -/
abbrev PairTF := String × String × CandleType

/-- Dict lookup: the value bound to `k`, if any. -/
def alookup {K V : Type} [DecidableEq K] : List (K × V) → K → Option V
  | [], _ => none
  | (k', v) :: rest, k => if k = k' then some v else alookup rest k

/-- Dict assignment `m[k] = v`: replace the binding in place, else append. -/
def aset {K V : Type} [DecidableEq K] : List (K × V) → K → V → List (K × V)
  | [], k, v => [(k, v)]
  | (k', v') :: rest, k, v =>
    if k = k' then (k', v) :: rest else (k', v') :: aset rest k v

/-- Dict deletion `del m[k]`. -/
def aerase {K V : Type} [DecidableEq K] (m : List (K × V)) (k : K) : List (K × V) :=
  m.filter (fun e => decide (e.1 ≠ k))

/-- The mutable candle state of `Exchange`: `_klines` (cached frames) and
`_pairs_last_refresh_time` (epoch seconds of the last candle considered
refreshed, per key). -/
structure ExchangeState where
  klines : List (PairTF × List Row)
  pairs_last_refresh_time : List (PairTF × Int)
  deriving DecidableEq, Repr

/-- `Exchange.timeframes` (exchange.py line 26). -/
def Exchange.timeframes : List String := ["1m", "5m"]

/-- `Exchange.ohlcv_candle_limit` (exchange.py lines 210-226): always `1`
in this repository. -/
def Exchange.ohlcv_candle_limit (timeframe : String) (candle_type : CandleType) : Nat := 1

/-- `self.required_candle_call_count = 1` (exchange.py line 77). -/
def Exchange.required_candle_call_count : Nat := 1

/-- `self.startup_candle_count = 1` (exchange.py line 67). -/
def Exchange.startup_candle_count : Nat := 1

/-- `self.ohlcv_require_since = True` (exchange.py line 71). -/
def Exchange.ohlcv_require_since : Bool := true

/-- `self.ohlcv_partial_candle = True` (exchange.py line 70). -/
def Exchange.ohlcv_partial_candle : Bool := true

/-- `Exchange._now_is_time_to_refresh` (exchange.py lines 86-94): the key
needs a refresh when its recorded last refresh plus one interval is
strictly before the open time of the current candle. -/
def Exchange.now_is_time_to_refresh (st : ExchangeState) (pair timeframe : String)
    (candle_type : CandleType) (nowMs : Int) : Bool :=
  let interval_in_sec := timeframe_to_seconds timeframe
  let plr := (alookup st.pairs_last_refresh_time (pair, timeframe, candle_type)).getD 0
    + interval_in_sec
  decide (plr < timeframe_to_prev_ts timeframe nowMs)

/-- A built fetch coroutine: `historic` is
`_async_get_historic_ohlcv(pair, timeframe, since_ms, ...)` (the
multi-page, since-based download), `one_call` is a single
`_async_get_candle_history` call. -/
inductive Job where
  | historic (pair timeframe : String) (candle_type : CandleType) (since_ms : Int)
  | one_call (pair timeframe : String) (candle_type : CandleType) (since_ms : Option Int)
  deriving DecidableEq, Repr

def Job.pair : Job → String
  | .historic p _ _ _ => p
  | .one_call p _ _ _ => p

def Job.timeframe : Job → String
  | .historic _ tf _ _ => tf
  | .one_call _ tf _ _ => tf

def Job.candle_type : Job → CandleType
  | .historic _ _ ct _ => ct
  | .one_call _ _ ct _ => ct

def Job.key (j : Job) : PairTF := (j.pair, j.timeframe, j.candle_type)

/-- Python truthiness of the optional `since_ms` (`if not since_ms`
treats both `None` and `0` as absent). -/
def sinceTruthy : Option Int → Bool
  | none => false
  | some v => decide (v ≠ 0)

/-- `Exchange._build_coroutine` (exchange.py lines 283-326), including
its side effect on `_klines`: when the key is cached (and `cache`), a
"time jump" — the grid point `candle_limit - 5` candles before now not
being earlier than the recorded last refresh — evicts the cache entry;
then a missing/falsy `since_ms` is back-filled whenever
`ohlcv_require_since` (or more than one call is needed), and a truthy
`since_ms` selects the multi-page historic download. -/
def Exchange.build_coroutine (st : ExchangeState) (pair timeframe : String)
    (candle_type : CandleType) (since_ms : Option Int) (cache : Bool) (nowMs : Int) :
    ExchangeState × Job :=
  let k : PairTF := (pair, timeframe, candle_type)
  let not_all_data := cache && decide (Exchange.required_candle_call_count > 1)
  let sn : ExchangeState × Bool :=
    if cache ∧ (alookup st.klines k).isSome then
      let candle_limit := Exchange.ohlcv_candle_limit timeframe candle_type
      let min_date := date_minus_candles_ts timeframe ((candle_limit : Int) - 5) nowMs
      let last_refresh := (alookup st.pairs_last_refresh_time k).getD 0
      if min_date < last_refresh then (st, false)
      else ({ st with klines := aerase st.klines k }, not_all_data)
    else (st, not_all_data)
  let since_ms :=
    if !sinceTruthy since_ms && (Exchange.ohlcv_require_since || sn.2) then
      let one_call := timeframe_to_msecs timeframe *
        (Exchange.ohlcv_candle_limit timeframe candle_type : Int)
      let move_to := one_call * (Exchange.required_candle_call_count : Int)
      some ((timeframe_to_next_ts timeframe nowMs - move_to / 1000) * 1000)
    else since_ms
  if sinceTruthy since_ms then
    (sn.1, Job.historic pair timeframe candle_type (since_ms.getD 0))
  else (sn.1, Job.one_call pair timeframe candle_type since_ms)

/-- The loop body of `Exchange._build_ohlcv_dl_jobs` (exchange.py lines
96-135) over the deduplicated pair list: skip unsupported
spot/futures timeframes with a warning; build a coroutine unless
(`cache` and cached and fresh); otherwise record the key as served from
cache.  Returns (state after evictions, coroutines, cached keys), each
list in iteration order. -/
def Exchange.build_ohlcv_dl_jobs_go (since_ms : Option Int) (cache : Bool) (nowMs : Int) :
    ExchangeState → List PairTF → ExchangeState × List Job × List PairTF
  | st, [] => (st, [], [])
  | st, (pair, timeframe, candle_type) :: rest =>
    if ¬ (timeframe ∈ Exchange.timeframes) ∧
        (candle_type = CandleType.spot ∨ candle_type = CandleType.futures) then
      Exchange.build_ohlcv_dl_jobs_go since_ms cache nowMs st rest
    else if cache = false ∨ (alookup st.klines (pair, timeframe, candle_type)).isNone ∨
        Exchange.now_is_time_to_refresh st pair timeframe candle_type nowMs = true then
      let sj := Exchange.build_coroutine st pair timeframe candle_type since_ms cache nowMs
      let r := Exchange.build_ohlcv_dl_jobs_go since_ms cache nowMs sj.1 rest
      (r.1, sj.2 :: r.2.1, r.2.2)
    else
      let r := Exchange.build_ohlcv_dl_jobs_go since_ms cache nowMs st rest
      (r.1, r.2.1, (pair, timeframe, candle_type) :: r.2.2)

/-- `Exchange._build_ohlcv_dl_jobs`: iterate over `set(pairs)`
(modelled as `eraseDups`; the claims below use singleton lists). -/
def Exchange.build_ohlcv_dl_jobs (st : ExchangeState) (pairs : List PairTF)
    (since_ms : Option Int) (cache : Bool) (nowMs : Int) :
    ExchangeState × List Job × List PairTF :=
  Exchange.build_ohlcv_dl_jobs_go since_ms cache nowMs st pairs.eraseDups

/-- `Exchange._process_ohlcv_df` (exchange.py lines 389-421): a nonempty
tick list (with `cache`) records the last (or, when dropping the
incomplete candle and at least two ticks, second-to-last) tick's period
start, in seconds, as the key's last refresh time; the ticks are parsed
and cleaned with `fill_missing=True`; with `cache`, a previously cached
frame is merged (`clean` of the concatenation, `fill_missing=True,
drop_incomplete=False`) and aged out to the last
`candle_limit + startup_candle_count` rows. -/
def Exchange.process_ohlcv_df (st : ExchangeState) (pair timeframe : String)
    (c_type : CandleType) (ticks : List Row) (cache : Bool) (drop_incomplete : Bool) :
    ExchangeState × List Row :=
  let k : PairTF := (pair, timeframe, c_type)
  let st :=
    if ticks ≠ [] ∧ cache = true then
      let idx := if drop_incomplete = true ∧ ticks.length > 1
        then ticks.length - 2 else ticks.length - 1
      let plrt := aset st.pairs_last_refresh_time k ((ticks.getD idx default).date / 1000)
      { st with pairs_last_refresh_time := plrt }
    else st
  let step := timeframe_to_msecs timeframe
  let ohlcv_df := ohlcv_to_dataframe ticks step true drop_incomplete
  if cache then
    match alookup st.klines k with
    | some old =>
      let combined := clean_ohlcv_dataframe (old ++ ohlcv_df) step true false
      let candle_limit := Exchange.ohlcv_candle_limit timeframe c_type
      let trimmed := combined.rtake (candle_limit + Exchange.startup_candle_count)
      ({ st with klines := aset st.klines k trimmed }, trimmed)
    | none => ({ st with klines := aset st.klines k ohlcv_df }, ohlcv_df)
  else (st, ohlcv_df)

/-- The result-gathering loop of `Exchange.refresh_latest_ohlcv`
(exchange.py lines 163-188).  The coroutines are gathered in batches of
at most 100 with `return_exceptions=True` and the results of each batch
are consumed in order, so overall the jobs are processed sequentially in
build order: a job whose fetch raised is logged and skipped (it aborts
nothing), a successful one is processed with the drop hint
(`ohlcv_partial_candle`, which both fetch paths return) unless the
caller supplied `drop_incomplete`. -/
def Exchange.run_jobs (fetch : Job → Except String (List Row)) (cache : Bool)
    (drop_incomplete : Option Bool) :
    ExchangeState → List (PairTF × List Row) → List Job →
      ExchangeState × List (PairTF × List Row)
  | st, acc, [] => (st, acc)
  | st, acc, job :: rest =>
    match fetch job with
    | .error _ => Exchange.run_jobs fetch cache drop_incomplete st acc rest
    | .ok ticks =>
      let drop := drop_incomplete.getD Exchange.ohlcv_partial_candle
      let sr := Exchange.process_ohlcv_df st job.pair job.timeframe job.candle_type
        ticks cache drop
      Exchange.run_jobs fetch cache drop_incomplete sr.1 (aset acc job.key sr.2) rest

/-- The observable outcome of one `refresh_latest_ohlcv` call: the final
exchange state, the returned `results_df`, and the fetch jobs issued. -/
structure RefreshResult where
  state : ExchangeState
  results : List (PairTF × List Row)
  jobs : List Job
  deriving DecidableEq, Repr

/-- `Exchange.refresh_latest_ohlcv` (exchange.py lines 137-197): build
the download jobs (evictions included), execute them, then serve the
cache-eligible keys straight from `_klines` (`copy=False`; an absent
key yields an empty frame, as `Exchange.klines` does). -/
def Exchange.refresh_latest_ohlcv (st : ExchangeState) (pairs : List PairTF)
    (since_ms : Option Int) (cache : Bool) (drop_incomplete : Option Bool)
    (nowMs : Int) (fetch : Job → Except String (List Row)) : RefreshResult :=
  let b := Exchange.build_ohlcv_dl_jobs st pairs since_ms cache nowMs
  let r := Exchange.run_jobs fetch cache drop_incomplete b.1 [] b.2.1
  let results := b.2.2.foldl (fun acc k => aset acc k ((alookup r.1.klines k).getD [])) r.2
  ⟨r.1, results, b.2.1⟩

/-! ### Notification fan-out (`rpc/manager.py`) and scheduler (`worker.py`) -/

/-- A `status`-carrying RPC message (`RPCStatusMsg` in `rpc/types.py`):
a `type` tag and a `status` text payload. -/
structure Msg where
  type : String
  status : String
  deriving DecidableEq, Repr

/-- What one handler's `send_msg` does with a message: return, raise
`NotImplementedError`, or raise some other exception. -/
inductive SendOutcome where
  | ok
  | notImplementedError
  | raised (e : String)
  deriving DecidableEq, Repr

/-- A registered RPC handler (sink): its `name` and the behavior of its
`send_msg`. -/
structure RPCHandlerM where
  name : String
  behavior : Msg → SendOutcome

/-- One entry of the delivery log: which handler was invoked with which
message, and how its `send_msg` ended. -/
structure Invocation where
  handler : String
  msg : Msg
  outcome : SendOutcome
  deriving DecidableEq, Repr

/-- `RPCManager.send_msg` (rpc/manager.py lines 30-52): iterate the
registered handlers in order and call each one's `send_msg` inside
`try`/`except`; `NotImplementedError` is logged as an error, any other
`Exception` is logged with `logger.exception`, and in every case the
loop proceeds to the remaining handlers.  The returned list is the log
of the handler invocations, in order. -/
def RPCManager.send_msg : List RPCHandlerM → Msg → List Invocation
  | [], _ => []
  | handler :: rest, msg =>
    { handler := handler.name, msg := msg, outcome := handler.behavior msg }
      :: RPCManager.send_msg rest msg

/-- Modelled from the spec: `fasttraders/enums/rpc_message_type.py` is
not under `src/`.  Per the spec's message wire shape
(`type: one of STATUS|STARTUP|WARNING|SERIES_UPDATED|NEW_PERIOD`) and
this repository's string-valued enums (`CandleType(str, Enum)`), the
message type is a string and `RPCMessageType.STATUS` has the lowercase
member name as value. -/
def RPCMessageType.STATUS : String := "status"

/-- Modelled from the spec: the `WARNING` member of the absent
`RPCMessageType` enum, as a string value. -/
def RPCMessageType.WARNING : String := "warning"

/-- `State` (`enums/state.py`): the bot's scheduler states. -/
inductive State where
  | started
  | running
  | stopped
  deriving DecidableEq, Repr

/-- The part of `Bot` the scheduler claims touch: the bot state, the
RPC manager's registered handlers, the list of messages handed to
`RPCManager.send_msg` (one entry per call), and the accumulated
fan-out delivery log. -/
structure BotM where
  state : State
  handlers : List RPCHandlerM
  sent : List Msg
  log : List Invocation

/-- `Bot.notify_status` (bot.py lines 36-45): wrap the text in a
message with the given type tag and hand it to `RPCManager.send_msg`. -/
def Bot.notify_status (b : BotM) (msg : String) (msg_type : String) : BotM :=
  { b with
    sent := b.sent ++ [{ type := msg_type, status := msg }]
    log := b.log ++ RPCManager.send_msg b.handlers { type := msg_type, status := msg } }

/-- The diagnostic text `Worker.running` builds from the traceback:
`f'*OperationalException:*\n```\n{tb}```\n {hint}'`. -/
def Worker.diagnostic (tb : String) : String :=
  "*OperationalException:*\n```\n" ++ tb ++
    "```\n Issue `/start` if you think it is safe to restart."

/-- `Worker.running` (worker.py lines 164-177): run `self.bot.update()`
guarded; on any `Exception`, send one notification with
`msg_type='Exception'` (a literal string, not an `RPCMessageType`
member) carrying the formatted traceback plus restart hint, then force
the bot state to `STOPPED`.  The body `self.bot.update()` is the
`update` parameter: it returns the (possibly part-way mutated) bot and
`none`, or the bot together with `some` traceback when it raised — in
the source `Bot` defines no `update` method at all, so at runtime the
call raises `AttributeError`, which this guard also catches. -/
def Worker.running (update : BotM → BotM × Option String) (b : BotM) : BotM :=
  match update b with
  | (b1, none) => b1
  | (b1, some tb) =>
    let b2 := Bot.notify_status b1 (Worker.diagnostic tb) "Exception"
    { b2 with state := State.stopped }

/-- The observable outcome of one `Worker._throttle` call: the wall
clock when it returns and the `sleep_duration` it computed (and
printed). -/
structure ThrottleResult where
  endTime : ℚ
  sleep_duration : ℚ
  deriving DecidableEq, Repr

/-- `Worker._throttle` (worker.py lines 112-154) for a handler that
takes `func_duration` seconds, started at wall-clock `start_time`:
`time_passed` is measured around `func(...)`,
`sleep_duration = max(self._throttle_secs - time_passed, 0.0)` is
computed and printed — but no sleep ever happens (`Worker._sleep` is
defined on lines 156-159 and never called), so the wall clock at return
is `start_time + func_duration`. -/
def Worker.throttle (throttle_secs func_duration start_time : ℚ) : ThrottleResult :=
  let last_throttle_start_time := start_time
  let time_passed := (start_time + func_duration) - last_throttle_start_time
  let sleep_duration := max (throttle_secs - time_passed) 0
  { endTime := start_time + func_duration, sleep_duration := sleep_duration }

/-- Modelled from the spec (claim C2's reading of `_throttle`): after
the handler returns, sleep for `max(throttleSecs - elapsed, 0)`, so the
iteration ends at `start + duration + sleep`. -/
def Worker.throttle_per_spec (throttle_secs func_duration start_time : ℚ) : ThrottleResult :=
  let time_passed := func_duration
  let sleep_duration := max (throttle_secs - time_passed) 0
  { endTime := start_time + func_duration + sleep_duration
    sleep_duration := sleep_duration }

/-! ### Basic lemmas about the dedup machinery -/

theorem mem_insertSortedU (x d : Int) (l : List Int) :
    d ∈ insertSortedU x l ↔ d = x ∨ d ∈ l := by
  induction l with
  | nil => simp [insertSortedU]
  | cons y ys ih =>
    simp only [insertSortedU]
    split
    · simp only [List.mem_cons]
    · split
      · next h1 h2 =>
        subst h2
        simp only [List.mem_cons]
        tauto
      · simp only [List.mem_cons, ih]
        tauto

theorem pairwise_insertSortedU (x : Int) (l : List Int) (h : l.Pairwise (· < ·)) :
    (insertSortedU x l).Pairwise (· < ·) := by
  induction l with
  | nil => simp [insertSortedU]
  | cons y ys ih =>
    rcases List.pairwise_cons.mp h with ⟨hy, hys⟩
    simp only [insertSortedU]
    split
    · next h1 =>
      refine List.pairwise_cons.mpr ⟨?_, h⟩
      intro a ha
      rcases List.mem_cons.mp ha with rfl | ha
      · exact h1
      · exact lt_trans h1 (hy a ha)
    · split
      · exact h
      · next h1 h2 =>
        refine List.pairwise_cons.mpr ⟨?_, ih hys⟩
        intro a ha
        rcases (mem_insertSortedU x a ys).mp ha with rfl | ha
        · omega
        · exact hy a ha

theorem insertSortedU_eq_cons (x : Int) (l : List Int) (h : ∀ y ∈ l, x < y) :
    insertSortedU x l = x :: l := by
  cases l with
  | nil => rfl
  | cons y ys => simp only [insertSortedU, if_pos (h y (List.mem_cons_self y ys))]

theorem sortedUniqueDates_cons (r : Row) (rest : List Row) :
    sortedUniqueDates (r :: rest) = insertSortedU r.date (sortedUniqueDates rest) := rfl

theorem sortedUniqueDates_pairwise (rows : List Row) :
    (sortedUniqueDates rows).Pairwise (· < ·) := by
  induction rows with
  | nil => simp [sortedUniqueDates]
  | cons r rest ih => exact pairwise_insertSortedU _ _ ih

theorem mem_sortedUniqueDates (d : Int) (rows : List Row) :
    d ∈ sortedUniqueDates rows ↔ d ∈ rows.map Row.date := by
  induction rows with
  | nil => simp [sortedUniqueDates]
  | cons r rest ih =>
    rw [sortedUniqueDates_cons]
    simp only [mem_insertSortedU, ih, List.map_cons, List.mem_cons]

theorem sortedUniqueDates_nodup (rows : List Row) : (sortedUniqueDates rows).Nodup :=
  (sortedUniqueDates_pairwise rows).imp ne_of_lt

theorem filter_eq_single_of_nodup {α : Type} [DecidableEq α] (l : List α) (d : α)
    (hnd : l.Nodup) (hd : d ∈ l) :
    l.filter (fun x => decide (x = d)) = [d] := by
  induction l with
  | nil => cases hd
  | cons y ys ih =>
    rcases List.nodup_cons.mp hnd with ⟨hy, hys⟩
    rcases List.mem_cons.mp hd with rfl | hd
    · have hnil : ys.filter (fun x => decide (x = d)) = [] := by
        rw [List.filter_eq_nil_iff]
        intro a ha
        simp only [decide_eq_true_eq]
        rintro rfl
        exact hy ha
      simp [List.filter_cons, hnil]
    · have hyd : y ≠ d := by
        rintro rfl
        exact hy hd
      simp [List.filter_cons, hyd, ih hys hd]

theorem foldl_min_le_init (l : List Int) (a : Int) : l.foldl min a ≤ a := by
  induction l generalizing a with
  | nil => simp
  | cons x xs ih => exact le_trans (ih (min a x)) (min_le_left a x)

theorem foldl_min_le (l : List Int) (a b : Int) (h : b = a ∨ b ∈ l) :
    l.foldl min a ≤ b := by
  induction l generalizing a with
  | nil =>
    rcases h with rfl | h
    · simp
    · cases h
  | cons x xs ih =>
    simp only [List.foldl_cons]
    rcases h with rfl | h
    · exact le_trans (foldl_min_le_init xs (min b x)) (min_le_left b x)
    · rcases List.mem_cons.mp h with rfl | h
      · exact le_trans (foldl_min_le_init xs (min a b)) (min_le_right a b)
      · exact ih (min a x) (Or.inr h)

theorem le_foldl_min (l : List Int) (a b : Int) (ha : b ≤ a) (hx : ∀ x ∈ l, b ≤ x) :
    b ≤ l.foldl min a := by
  induction l generalizing a with
  | nil => simpa
  | cons x xs ih =>
    simp only [List.foldl_cons]
    exact ih (min a x) (le_min ha (hx x (List.mem_cons_self x xs)))
      (fun y hy => hx y (List.mem_cons_of_mem x hy))

theorem foldl_min_eq (l : List Int) (a b : Int) (hmem : b = a ∨ b ∈ l)
    (ha : b ≤ a) (hx : ∀ x ∈ l, b ≤ x) : l.foldl min a = b :=
  le_antisymm (foldl_min_le l a b hmem) (le_foldl_min l a b ha hx)

theorem init_le_foldl_max (l : List Int) (a : Int) : a ≤ l.foldl max a := by
  induction l generalizing a with
  | nil => simp
  | cons x xs ih => exact le_trans (le_max_left a x) (ih (max a x))

theorem le_foldl_max (l : List Int) (a b : Int) (h : b = a ∨ b ∈ l) :
    b ≤ l.foldl max a := by
  induction l generalizing a with
  | nil =>
    rcases h with rfl | h
    · simp
    · cases h
  | cons x xs ih =>
    simp only [List.foldl_cons]
    rcases h with rfl | h
    · exact le_trans (le_max_left b x) (init_le_foldl_max xs (max b x))
    · rcases List.mem_cons.mp h with rfl | h
      · exact le_trans (le_max_right a b) (init_le_foldl_max xs (max a b))
      · exact ih (max a x) (Or.inr h)

theorem foldl_max_le (l : List Int) (a b : Int) (ha : a ≤ b) (hx : ∀ x ∈ l, x ≤ b) :
    l.foldl max a ≤ b := by
  induction l generalizing a with
  | nil => simpa
  | cons x xs ih =>
    simp only [List.foldl_cons]
    exact ih (max a x) (max_le ha (hx x (List.mem_cons_self x xs)))
      (fun y hy => hx y (List.mem_cons_of_mem x hy))

theorem foldl_max_eq (l : List Int) (a b : Int) (hmem : b = a ∨ b ∈ l)
    (ha : a ≤ b) (hx : ∀ x ∈ l, x ≤ b) : l.foldl max a = b :=
  le_antisymm (foldl_max_le l a b ha hx) (le_foldl_max l a b hmem)

theorem aggGroup_singleton (r : Row) : aggGroup r.date [r] = r := by
  cases r
  simp [aggGroup, firstD, lastD, qmax, qmin]

theorem aggBin_singleton (d : Int) (r : Row) (hd : r.date = d) : aggBin d [r] = r := by
  subst hd
  cases r
  simp [aggBin, firstD, lastD, qmax, qmin, qsum]

theorem fillRowAt_date (rows : List Row) (step origin : Int) (k : Nat) :
    (fillRowAt rows step origin k).date = origin + step * k := by
  unfold fillRowAt
  dsimp only
  split <;> rfl

/-! ### Characterization of the dedup step -/

theorem map_date_groupbyAggDate (rows : List Row) :
    (groupbyAggDate rows).map Row.date = sortedUniqueDates rows := by
  unfold groupbyAggDate
  rw [List.map_map]
  have : (Row.date ∘ fun d => aggGroup d (dateGroup rows d)) = id := by
    funext d
    rfl
  rw [this, List.map_id]

theorem pairwise_groupbyAggDate (rows : List Row) :
    (groupbyAggDate rows).Pairwise (fun a b => a.date < b.date) := by
  have h := sortedUniqueDates_pairwise rows
  rw [← map_date_groupbyAggDate] at h
  exact (List.pairwise_map.mp h)

theorem dateGroup_cons_ne (r : Row) (rest : List Row) (d : Int) (h : r.date ≠ d) :
    dateGroup (r :: rest) d = dateGroup rest d := by
  simp [dateGroup, List.filter_cons, h]

theorem groupbyAggDate_of_pairwise (rows : List Row)
    (h : rows.Pairwise (fun a b => a.date < b.date)) :
    groupbyAggDate rows = rows := by
  induction rows with
  | nil => rfl
  | cons r rest ih =>
    rcases List.pairwise_cons.mp h with ⟨hlt, hrest⟩
    have h1 : sortedUniqueDates (r :: rest) = r.date :: sortedUniqueDates rest := by
      rw [sortedUniqueDates_cons]
      apply insertSortedU_eq_cons
      intro y hy
      obtain ⟨x, hx, rfl⟩ := List.mem_map.mp ((mem_sortedUniqueDates y rest).mp hy)
      exact hlt x hx
    unfold groupbyAggDate
    rw [h1, List.map_cons]
    have hhead : aggGroup r.date (dateGroup (r :: rest) r.date) = r := by
      have hg : dateGroup (r :: rest) r.date = [r] := by
        have hnil : rest.filter (fun x => decide (x.date = r.date)) = [] := by
          rw [List.filter_eq_nil_iff]
          intro a ha
          simp only [decide_eq_true_eq]
          exact ne_of_gt (hlt a ha)
        simp [dateGroup, List.filter_cons, hnil]
      rw [hg]
      exact aggGroup_singleton r
    rw [hhead]
    have htail : ∀ d ∈ sortedUniqueDates rest,
        aggGroup d (dateGroup (r :: rest) d) = aggGroup d (dateGroup rest d) := by
      intro d hd
      obtain ⟨x, hx, rfl⟩ := List.mem_map.mp ((mem_sortedUniqueDates d rest).mp hd)
      rw [dateGroup_cons_ne r rest x.date (ne_of_lt (hlt x hx))]
    rw [List.map_congr_left htail]
    exact congrArg (r :: ·) (ih hrest)

/-! ### Characterization of the gap-fill step -/

theorem filter_range_single (n k : Nat) (hk : k < n) :
    (List.range n).filter (fun j => decide (j = k)) = [k] :=
  filter_eq_single_of_nodup (List.range n) k (List.nodup_range n) (List.mem_range.mpr hk)

theorem binGroup_map_range (f : Nat → Row) (n : Nat) (step origin : Int) (hstep : 0 < step)
    (hdate : ∀ k, (f k).date = origin + step * k) (k : Nat) (hk : k < n) :
    binGroup ((List.range n).map f) step origin k = [f k] := by
  unfold binGroup
  rw [List.filter_map]
  have hpred : ∀ j ∈ List.range n,
      ((fun r => decide (origin + step * k ≤ r.date) &&
          decide (r.date < origin + step * (k + 1))) ∘ f) j = decide (j = k) := by
    intro j _
    simp only [Function.comp_apply, hdate j]
    have h1 : origin + step * (k : Int) ≤ origin + step * (j : Int) ↔ k ≤ j := by
      rw [add_le_add_iff_left, mul_le_mul_left hstep, Nat.cast_le]
    have h2 : origin + step * (j : Int) < origin + step * ((k : Int) + 1) ↔ j < k + 1 := by
      rw [add_lt_add_iff_left, mul_lt_mul_left hstep]
      constructor <;> (intro hx; omega)
    rw [Bool.eq_iff_iff]
    simp only [Bool.and_eq_true, decide_eq_true_eq]
    rw [h1, h2]
    omega
  rw [List.filter_congr hpred, filter_range_single n k hk]
  rfl

theorem ohlcv_fill_cons (r0 : Row) (rs : List Row) (step : Int) :
    ohlcv_fill_up_missing_data (r0 :: rs) step =
      (List.range
        (((maxDate r0 rs - (minDate r0 rs - minDate r0 rs % step)) / step).toNat + 1)).map
        (fillRowAt (r0 :: rs) step (minDate r0 rs - minDate r0 rs % step)) := rfl

theorem fill_map_range_eq (f : Nat → Row) (m : Nat) (step origin : Int) (hstep : 0 < step)
    (horigin : origin % step = 0)
    (hdate : ∀ k, (f k).date = origin + step * k) :
    ohlcv_fill_up_missing_data ((List.range (m + 1)).map f) step
      = (List.range (m + 1)).map f := by
  have hL : (List.range (m + 1)).map f = f 0 :: (List.range m).map (f ∘ Nat.succ) := by
    rw [List.range_succ_eq_map, List.map_cons, List.map_map]
  have hdates : ∀ x ∈ ((List.range m).map (f ∘ Nat.succ)).map Row.date,
      ∃ j, j < m ∧ x = origin + step * ((j : Int) + 1) := by
    intro x hx
    rw [List.map_map] at hx
    obtain ⟨j, hj, rfl⟩ := List.mem_map.mp hx
    refine ⟨j, List.mem_range.mp hj, ?_⟩
    have := hdate (j + 1)
    simp only [Function.comp_apply, Nat.succ_eq_add_one]
    rw [this]
    push_cast
    ring
  have hd0 : (f 0).date = origin := by
    rw [hdate 0]
    simp
  have hmin : minDate (f 0) ((List.range m).map (f ∘ Nat.succ)) = origin := by
    unfold minDate
    rw [← List.foldl_map Row.date (fun x y => min x y)]
    apply foldl_min_eq
    · exact Or.inl hd0.symm
    · exact le_of_eq hd0.symm
    · intro x hx
      obtain ⟨j, _, rfl⟩ := hdates x hx
      have : (0 : Int) ≤ step * ((j : Int) + 1) := by positivity
      omega
  have hmax : maxDate (f 0) ((List.range m).map (f ∘ Nat.succ)) = origin + step * m := by
    unfold maxDate
    rw [← List.foldl_map Row.date (fun x y => max x y)]
    apply foldl_max_eq
    · rcases Nat.eq_zero_or_pos m with rfl | hm
      · left
        rw [hd0]
        simp
      · right
        apply List.mem_map.mpr
        refine ⟨(f ∘ Nat.succ) (m - 1),
          List.mem_map_of_mem _ (List.mem_range.mpr (by omega)), ?_⟩
        have hmm : m - 1 + 1 = m := by omega
        simp only [Function.comp_apply, Nat.succ_eq_add_one, hmm, hdate m]
    · rw [hd0]
      have : (0 : Int) ≤ step * m := by positivity
      omega
    · intro x hx
      obtain ⟨j, hj, rfl⟩ := hdates x hx
      have hle : ((j : Int) + 1) ≤ (m : Int) := by exact_mod_cast hj
      have := (mul_le_mul_left hstep).mpr hle
      omega
  rw [hL, ohlcv_fill_cons, hmin, hmax, horigin, sub_zero, add_sub_cancel_left,
    Int.mul_ediv_cancel_left _ (ne_of_gt hstep), Int.toNat_natCast, ← hL]
  apply List.map_congr_left
  intro k hk
  have hbin := binGroup_map_range f (m + 1) step origin hstep hdate k (List.mem_range.mp hk)
  unfold fillRowAt
  dsimp only
  rw [hbin]
  simp only [List.isEmpty_cons, Bool.false_eq_true, if_false]
  exact aggBin_singleton _ _ (by rw [hdate k])

theorem sub_emod_self_emod (a step : Int) : (a - a % step) % step = 0 := by
  rw [Int.sub_emod, Int.emod_emod_of_dvd _ dvd_rfl, sub_self, Int.zero_emod]

theorem fill_idem (rows : List Row) (step : Int) (hstep : 0 < step) :
    ohlcv_fill_up_missing_data (ohlcv_fill_up_missing_data rows step) step
      = ohlcv_fill_up_missing_data rows step := by
  cases rows with
  | nil => rfl
  | cons r0 rs =>
    rw [ohlcv_fill_cons r0 rs step]
    exact fill_map_range_eq _ _ step _ hstep
      (sub_emod_self_emod (minDate r0 rs) step) (fillRowAt_date _ _ _)

theorem pairwise_fill (rows : List Row) (step : Int) (hstep : 0 < step) :
    (ohlcv_fill_up_missing_data rows step).Pairwise (fun a b => a.date < b.date) := by
  cases rows with
  | nil => simp [ohlcv_fill_up_missing_data]
  | cons r0 rs =>
    rw [ohlcv_fill_cons r0 rs step]
    rw [List.pairwise_map]
    apply (List.pairwise_lt_range _).imp
    intro i j hij
    rw [fillRowAt_date, fillRowAt_date]
    have hij' : (i : Int) < j := by exact_mod_cast hij
    exact add_lt_add_left ((mul_lt_mul_left hstep).mpr hij') _

theorem date_mem_of_mem_groupbyAggDate (rows : List Row) (r' : Row)
    (h : r' ∈ groupbyAggDate rows) : r'.date ∈ rows.map Row.date := by
  unfold groupbyAggDate at h
  obtain ⟨d, hd, rfl⟩ := List.mem_map.mp h
  exact (mem_sortedUniqueDates d rows).mp hd

theorem binGroup_groupbyAggDate_eq_nil (rows : List Row) (step origin : Int) (k : Nat)
    (h : ∀ x ∈ rows.map Row.date,
      ¬(origin + step * k ≤ x ∧ x < origin + step * (k + 1))) :
    binGroup (groupbyAggDate rows) step origin k = [] := by
  unfold binGroup
  rw [List.filter_eq_nil_iff]
  intro r' hr'
  simp only [Bool.and_eq_true, decide_eq_true_eq, not_and]
  intro h1 h2
  exact h r'.date (date_mem_of_mem_groupbyAggDate rows r' hr') ⟨h1, h2⟩

theorem binGroup_groupbyAggDate_eq_single (rows : List Row) (step origin : Int) (k : Nat)
    (T : Int) (hTmem : T ∈ rows.map Row.date)
    (hTwin : origin + step * k ≤ T ∧ T < origin + step * (k + 1))
    (honly : ∀ x ∈ rows.map Row.date,
      origin + step * k ≤ x → x < origin + step * (k + 1) → x = T) :
    binGroup (groupbyAggDate rows) step origin k = [aggGroup T (dateGroup rows T)] := by
  unfold binGroup groupbyAggDate
  rw [List.filter_map]
  have hpred : ∀ x ∈ sortedUniqueDates rows,
      ((fun r => decide (origin + step * k ≤ r.date) &&
          decide (r.date < origin + step * (k + 1))) ∘
        fun d => aggGroup d (dateGroup rows d)) x = decide (x = T) := by
    intro x hx
    simp only [Function.comp_apply]
    have hxdate : (aggGroup x (dateGroup rows x)).date = x := rfl
    rw [hxdate, Bool.eq_iff_iff]
    simp only [Bool.and_eq_true, decide_eq_true_eq]
    constructor
    · rintro ⟨h1, h2⟩
      exact honly x ((mem_sortedUniqueDates x rows).mp hx) h1 h2
    · rintro rfl
      exact hTwin
  rw [List.filter_congr hpred,
    filter_eq_single_of_nodup _ T (sortedUniqueDates_nodup rows)
      ((mem_sortedUniqueDates T rows).mpr hTmem)]
  rfl

theorem fillRowAt_of_empty (rows : List Row) (step origin : Int) (k : Nat)
    (h : binGroup rows step origin k = []) :
    fillRowAt rows step origin k =
      { date := origin + step * k
        o := ffillClose rows step origin k
        h := ffillClose rows step origin k
        l := ffillClose rows step origin k
        c := ffillClose rows step origin k
        v := 0 } := by
  unfold fillRowAt
  dsimp only
  rw [h]
  rfl

theorem ffillClose_succ_of_empty (rows : List Row) (step origin : Int) (k : Nat)
    (h : binGroup rows step origin (k + 1) = []) :
    ffillClose rows step origin (k + 1) = ffillClose rows step origin k := by
  show (let g := binGroup rows step origin (k + 1);
      if g.isEmpty then ffillClose rows step origin k else lastD (g.map Row.c))
    = ffillClose rows step origin k
  rw [h]
  rfl

theorem ffillClose_of_bin (rows : List Row) (step origin : Int) (k : Nat) (g : List Row)
    (hg : binGroup rows step origin k = g) (hne : g ≠ []) :
    ffillClose rows step origin k = lastD (g.map Row.c) := by
  cases k with
  | zero =>
    unfold ffillClose
    rw [hg]
  | succ k' =>
    unfold ffillClose
    rw [hg]
    dsimp only
    rw [if_neg]
    simp only [List.isEmpty_iff]
    exact hne

theorem filter_fill_output (rows : List Row) (step origin : Int) (n j : Nat)
    (hstep : 0 < step) (hj : j < n) :
    ((List.range n).map (fillRowAt rows step origin)).filter
        (fun r => decide (r.date = origin + step * j))
      = [fillRowAt rows step origin j] := by
  rw [List.filter_map]
  have hpred : ∀ i ∈ List.range n,
      ((fun r => decide (r.date = origin + step * j)) ∘ fillRowAt rows step origin) i
        = decide (i = j) := by
    intro i _
    simp only [Function.comp_apply, fillRowAt_date]
    rw [decide_eq_decide]
    constructor
    · intro hx
      have := mul_left_cancel₀ (ne_of_gt hstep) (by omega : step * (i : Int) = step * j)
      exact_mod_cast this
    · rintro rfl
      rfl
  rw [List.filter_congr hpred, filter_range_single n j hj]
  rfl

/-! ### Claims about the normalizer -/

/-- Claim C7, amended: with the cleaning options held fixed and
`dropIncomplete = false`, `clean` is idempotent — for every input
series, grid step and `fillGaps` setting,
`clean (clean series) = clean series`.  (As originally stated, for all
option values, the claim fails: `dropIncomplete = true` removes one
further trailing row per application, see the counterexample.) -/
theorem clean_ohlcv_dataframe_idempotent (rows : List Row) (step : Int)
    (fill_missing : Bool) (hstep : 0 < step) :
    clean_ohlcv_dataframe (clean_ohlcv_dataframe rows step fill_missing false)
        step fill_missing false
      = clean_ohlcv_dataframe rows step fill_missing false := by
  cases fill_missing with
  | false =>
    show groupbyAggDate (groupbyAggDate rows) = groupbyAggDate rows
    exact groupbyAggDate_of_pairwise _ (pairwise_groupbyAggDate rows)
  | true =>
    show ohlcv_fill_up_missing_data
        (groupbyAggDate (ohlcv_fill_up_missing_data (groupbyAggDate rows) step)) step
      = ohlcv_fill_up_missing_data (groupbyAggDate rows) step
    rw [groupbyAggDate_of_pairwise _ (pairwise_fill _ _ hstep)]
    exact fill_idem _ _ hstep

/-- Claim C7, witness: the idempotence theorem applied at a concrete
gapped two-row series with step `2` and `fillGaps = true`. -/
theorem clean_ohlcv_dataframe_idempotent_witness :
    (0 : Int) < 2 ∧
      clean_ohlcv_dataframe (clean_ohlcv_dataframe
          [⟨0, 1, 2, 0, 1, 5⟩, ⟨6, 3, 4, 2, 3, 7⟩] 2 true false) 2 true false
        = clean_ohlcv_dataframe [⟨0, 1, 2, 0, 1, 5⟩, ⟨6, 3, 4, 2, 3, 7⟩] 2 true false :=
  ⟨by decide, clean_ohlcv_dataframe_idempotent _ 2 true (by decide)⟩

/-- Claim C7, counterexample: with the options held fixed at
`fillGaps = false, dropIncomplete = true`, cleaning a two-row series
twice is not the same as cleaning it once — each application drops one
more trailing row, so `clean` is not a fixed point after one
application for every choice of options. -/
theorem clean_ohlcv_dataframe_not_idempotent_with_drop :
    clean_ohlcv_dataframe (clean_ohlcv_dataframe
        [⟨0, 1, 1, 1, 1, 1⟩, ⟨1, 2, 2, 2, 2, 2⟩] 1 false true) 1 false true
      ≠ clean_ohlcv_dataframe [⟨0, 1, 1, 1, 1, 1⟩, ⟨1, 2, 2, 2, 2, 2⟩] 1 false true := by
  decide

/-- Claim C8: whenever two or more input rows share a period-start `d`,
`clean` (dedup stage isolated: `fillGaps = false, dropIncomplete =
false`) outputs exactly one row at `d`, aggregated over the sharing rows
in input order as open = first, high = max, low = min, close = last,
volume = max. -/
theorem clean_dedup_shared_timestamp (rows : List Row) (step d : Int)
    (hdup : 2 ≤ (rows.filter (fun r => decide (r.date = d))).length) :
    (clean_ohlcv_dataframe rows step false false).filter (fun r => decide (r.date = d))
      = [{ date := d
           o := firstD ((rows.filter (fun r => decide (r.date = d))).map Row.o)
           h := qmax ((rows.filter (fun r => decide (r.date = d))).map Row.h)
           l := qmin ((rows.filter (fun r => decide (r.date = d))).map Row.l)
           c := lastD ((rows.filter (fun r => decide (r.date = d))).map Row.c)
           v := qmax ((rows.filter (fun r => decide (r.date = d))).map Row.v) }] := by
  have hne : rows.filter (fun r => decide (r.date = d)) ≠ [] := by
    intro hnil
    rw [hnil] at hdup
    simp at hdup
  have hd : d ∈ sortedUniqueDates rows := by
    rw [mem_sortedUniqueDates]
    obtain ⟨r, hr⟩ := List.exists_mem_of_ne_nil _ hne
    have hmem := List.mem_filter.mp hr
    exact List.mem_map.mpr ⟨r, hmem.1, by simpa using hmem.2⟩
  show (groupbyAggDate rows).filter _ = _
  unfold groupbyAggDate
  rw [List.filter_map]
  have hpred : ∀ x ∈ sortedUniqueDates rows,
      ((fun r => decide (r.date = d)) ∘ fun d' => aggGroup d' (dateGroup rows d')) x
        = decide (x = d) := by
    intro x _
    rfl
  rw [List.filter_congr hpred,
    filter_eq_single_of_nodup _ d (sortedUniqueDates_nodup rows) hd]
  rfl

/-- Claim C8, witness: two rows sharing period-start `5` collapse to one
row aggregated per the first/max/min/last/max rule. -/
theorem clean_dedup_shared_timestamp_witness :
    2 ≤ (([⟨5, 1, 3, 0, 2, 7⟩, ⟨5, 4, 9, 2, 6, 1⟩] : List Row).filter
        (fun r => decide (r.date = 5))).length
    ∧ (clean_ohlcv_dataframe [⟨5, 1, 3, 0, 2, 7⟩, ⟨5, 4, 9, 2, 6, 1⟩] 1 false false).filter
        (fun r => decide (r.date = 5))
      = [{ date := 5
           o := firstD ((([⟨5, 1, 3, 0, 2, 7⟩, ⟨5, 4, 9, 2, 6, 1⟩] : List Row).filter
              (fun r => decide (r.date = 5))).map Row.o)
           h := qmax ((([⟨5, 1, 3, 0, 2, 7⟩, ⟨5, 4, 9, 2, 6, 1⟩] : List Row).filter
              (fun r => decide (r.date = 5))).map Row.h)
           l := qmin ((([⟨5, 1, 3, 0, 2, 7⟩, ⟨5, 4, 9, 2, 6, 1⟩] : List Row).filter
              (fun r => decide (r.date = 5))).map Row.l)
           c := lastD ((([⟨5, 1, 3, 0, 2, 7⟩, ⟨5, 4, 9, 2, 6, 1⟩] : List Row).filter
              (fun r => decide (r.date = 5))).map Row.c)
           v := qmax ((([⟨5, 1, 3, 0, 2, 7⟩, ⟨5, 4, 9, 2, 6, 1⟩] : List Row).filter
              (fun r => decide (r.date = 5))).map Row.v) }] :=
  ⟨by decide, clean_dedup_shared_timestamp _ 1 5 (by decide)⟩

/-- Claim C9: for every series with rows at aligned periods `T` and
`T + 3·step` and none strictly in between, `clean` with
`fillGaps = true` synthesizes exactly one row at each of `T + step` and
`T + 2·step`, whose open, high, low and close all equal the close of
the (deduplicated) row at `T` and whose volume is `0`. -/
theorem clean_gap_fill_synthesizes_rows (rows : List Row) (step T : Int) (hstep : 0 < step)
    (halign : T % step = 0)
    (hT : T ∈ rows.map Row.date) (hT3 : T + 3 * step ∈ rows.map Row.date)
    (hgap : ∀ r ∈ rows, ¬(T < r.date ∧ r.date < T + 3 * step)) :
    ((clean_ohlcv_dataframe rows step true false).filter
        (fun r => decide (r.date = T + step))
      = [{ date := T + step, o := dedupCloseAt rows T, h := dedupCloseAt rows T,
           l := dedupCloseAt rows T, c := dedupCloseAt rows T, v := 0 }])
    ∧ ((clean_ohlcv_dataframe rows step true false).filter
        (fun r => decide (r.date = T + 2 * step))
      = [{ date := T + 2 * step, o := dedupCloseAt rows T, h := dedupCloseAt rows T,
           l := dedupCloseAt rows T, c := dedupCloseAt rows T, v := 0 }]) := by
  obtain ⟨r0, rs, hy⟩ : ∃ r0 rs, groupbyAggDate rows = r0 :: rs := by
    cases hc : groupbyAggDate rows with
    | nil =>
      exfalso
      have hmem : T ∈ (groupbyAggDate rows).map Row.date := by
        rw [map_date_groupbyAggDate, mem_sortedUniqueDates]
        exact hT
      rw [hc] at hmem
      simp at hmem
    | cons a b => exact ⟨a, b, rfl⟩
  have hTy : T = r0.date ∨ T ∈ rs.map Row.date := by
    have hmem : T ∈ (groupbyAggDate rows).map Row.date := by
      rw [map_date_groupbyAggDate, mem_sortedUniqueDates]
      exact hT
    rw [hy] at hmem
    simpa using hmem
  have hT3y : T + 3 * step = r0.date ∨ T + 3 * step ∈ rs.map Row.date := by
    have hmem : T + 3 * step ∈ (groupbyAggDate rows).map Row.date := by
      rw [map_date_groupbyAggDate, mem_sortedUniqueDates]
      exact hT3
    rw [hy] at hmem
    simpa using hmem
  have hdmin_le : minDate r0 rs ≤ T := by
    unfold minDate
    rw [← List.foldl_map Row.date (fun x y => min x y)]
    exact foldl_min_le _ _ _ hTy
  have hdmax_ge : T + 3 * step ≤ maxDate r0 rs := by
    unfold maxDate
    rw [← List.foldl_map Row.date (fun x y => max x y)]
    exact le_foldl_max _ _ _ hT3y
  set O := minDate r0 rs - minDate r0 rs % step with hO
  set N := ((maxDate r0 rs - O) / step).toNat + 1 with hN
  have horigin_mod : O % step = 0 := sub_emod_self_emod _ _
  have horigin_le : O ≤ T := by
    have hnn := Int.emod_nonneg (minDate r0 rs) (ne_of_gt hstep)
    omega
  obtain ⟨q, hq⟩ : step ∣ (T - O) := by
    apply Int.dvd_of_emod_eq_zero
    rw [Int.sub_emod, horigin_mod, halign]
    simp
  have hq0 : 0 ≤ q := by
    by_contra hneg
    push_neg at hneg
    have h1 : 0 ≤ step * q := by
      rw [← hq]
      omega
    exact absurd h1 (not_le.mpr (mul_neg_of_pos_of_neg hstep hneg))
  obtain ⟨k0, hk0⟩ : ∃ k0 : Nat, (k0 : Int) = q := ⟨q.toNat, Int.toNat_of_nonneg hq0⟩
  have hTgrid : T = O + step * (k0 : Int) := by
    rw [hk0]
    omega
  have hfill : clean_ohlcv_dataframe rows step true false
      = (List.range N).map (fillRowAt (groupbyAggDate rows) step O) := by
    show ohlcv_fill_up_missing_data (groupbyAggDate rows) step = _
    rw [hy, ohlcv_fill_cons, ← hy, ← hO, ← hN]
  have hbound : k0 + 3 ≤ ((maxDate r0 rs - O) / step).toNat := by
    have h1 : step * ((k0 : Int) + 3) ≤ maxDate r0 rs - O := by
      rw [mul_add]
      have h2 : step * (k0 : Int) = T - O := by
        rw [hk0]
        omega
      omega
    have h2 : ((k0 : Int) + 3) ≤ (maxDate r0 rs - O) / step := by
      rw [Int.le_ediv_iff_mul_le hstep, mul_comm]
      exact h1
    have h3 := Int.toNat_le_toNat h2
    have hcast : ((k0 : Int) + 3) = ((k0 + 3 : Nat) : Int) := by push_cast; ring
    rw [hcast, Int.toNat_natCast] at h3
    exact h3
  have hk1n : k0 + 1 < N := by omega
  have hk2n : k0 + 1 + 1 < N := by omega
  have hT1 : T + step = O + step * ((k0 + 1 : Nat) : Int) := by
    push_cast
    rw [hTgrid]
    ring
  have hT2 : T + 2 * step = O + step * ((k0 + 1 + 1 : Nat) : Int) := by
    push_cast
    rw [hTgrid]
    ring
  -- the two bins between T and T + 3·step hold no data
  have hbin_empty : ∀ j : Nat, k0 + 1 ≤ j → j ≤ k0 + 2 →
      binGroup (groupbyAggDate rows) step O j = [] := by
    intro j hj1 hj2
    apply binGroup_groupbyAggDate_eq_nil
    intro x hx
    obtain ⟨r, hr, rfl⟩ := List.mem_map.mp hx
    rintro ⟨ha, hb⟩
    refine hgap r hr ⟨?_, ?_⟩
    · have hlo : T + step ≤ O + step * (j : Int) := by
        rw [hTgrid]
        have : ((k0 : Int) + 1) ≤ (j : Int) := by exact_mod_cast hj1
        nlinarith
      omega
    · have hhi : O + step * ((j : Int) + 1) ≤ T + 3 * step := by
        rw [hTgrid]
        have : (j : Int) + 1 ≤ (k0 : Int) + 3 := by exact_mod_cast (by omega : j + 1 ≤ k0 + 3)
        nlinarith
      omega
  have hbin1 : binGroup (groupbyAggDate rows) step O (k0 + 1) = [] :=
    hbin_empty (k0 + 1) (by omega) (by omega)
  have hbin2 : binGroup (groupbyAggDate rows) step O (k0 + 1 + 1) = [] :=
    hbin_empty (k0 + 1 + 1) (by omega) (by omega)
  -- the bin at T holds exactly the deduplicated row at T
  have hbinT : binGroup (groupbyAggDate rows) step O k0
      = [aggGroup T (dateGroup rows T)] := by
    apply binGroup_groupbyAggDate_eq_single rows step O k0 T hT
    · constructor
      · rw [hTgrid]
      · have hexp : step * ((k0 : Int) + 1) = step * (k0 : Int) + step := by ring
        rw [hexp]
        omega
    · intro x hx h1 h2
      by_contra hne
      obtain ⟨r, hr, rfl⟩ := List.mem_map.mp hx
      refine hgap r hr ⟨?_, ?_⟩
      · omega
      · have hexp : step * ((k0 : Int) + 1) = step * (k0 : Int) + step := by ring
        rw [hexp] at h2
        omega
  have hffc : ffillClose (groupbyAggDate rows) step O k0 = dedupCloseAt rows T := by
    rw [ffillClose_of_bin _ _ _ _ _ hbinT (by simp)]
    rfl
  have hffc1 : ffillClose (groupbyAggDate rows) step O (k0 + 1) = dedupCloseAt rows T := by
    rw [ffillClose_succ_of_empty _ _ _ _ hbin1, hffc]
  have hffc2 : ffillClose (groupbyAggDate rows) step O (k0 + 1 + 1) = dedupCloseAt rows T := by
    rw [ffillClose_succ_of_empty _ _ _ _ hbin2, hffc1]
  rw [hfill]
  constructor
  · simp only [hT1]
    rw [filter_fill_output _ _ _ _ _ hstep hk1n,
      fillRowAt_of_empty _ _ _ _ hbin1, hffc1]
  · simp only [hT2]
    rw [filter_fill_output _ _ _ _ _ hstep hk2n,
      fillRowAt_of_empty _ _ _ _ hbin2, hffc2]

/-- Claim C9, witness: rows at periods `0` and `30` with `step = 10` get
synthesized rows at `10` and `20` carrying close `3` (the close at `0`)
and volume `0`. -/
theorem clean_gap_fill_synthesizes_rows_witness :
    ((0 : Int) < 10 ∧ (0 : Int) % 10 = 0
      ∧ (0 : Int) ∈ ([⟨0, 1, 2, 0, 3, 5⟩, ⟨30, 4, 5, 3, 4, 6⟩] : List Row).map Row.date
      ∧ (0 : Int) + 3 * 10 ∈
          ([⟨0, 1, 2, 0, 3, 5⟩, ⟨30, 4, 5, 3, 4, 6⟩] : List Row).map Row.date
      ∧ ∀ r ∈ ([⟨0, 1, 2, 0, 3, 5⟩, ⟨30, 4, 5, 3, 4, 6⟩] : List Row),
          ¬((0 : Int) < r.date ∧ r.date < 0 + 3 * 10))
    ∧ ((clean_ohlcv_dataframe [⟨0, 1, 2, 0, 3, 5⟩, ⟨30, 4, 5, 3, 4, 6⟩] 10 true false).filter
          (fun r => decide (r.date = 0 + 10))
        = [{ date := 0 + 10
             o := dedupCloseAt [⟨0, 1, 2, 0, 3, 5⟩, ⟨30, 4, 5, 3, 4, 6⟩] 0
             h := dedupCloseAt [⟨0, 1, 2, 0, 3, 5⟩, ⟨30, 4, 5, 3, 4, 6⟩] 0
             l := dedupCloseAt [⟨0, 1, 2, 0, 3, 5⟩, ⟨30, 4, 5, 3, 4, 6⟩] 0
             c := dedupCloseAt [⟨0, 1, 2, 0, 3, 5⟩, ⟨30, 4, 5, 3, 4, 6⟩] 0
             v := 0 }])
      ∧ ((clean_ohlcv_dataframe [⟨0, 1, 2, 0, 3, 5⟩, ⟨30, 4, 5, 3, 4, 6⟩] 10 true false).filter
          (fun r => decide (r.date = 0 + 2 * 10))
        = [{ date := 0 + 2 * 10
             o := dedupCloseAt [⟨0, 1, 2, 0, 3, 5⟩, ⟨30, 4, 5, 3, 4, 6⟩] 0
             h := dedupCloseAt [⟨0, 1, 2, 0, 3, 5⟩, ⟨30, 4, 5, 3, 4, 6⟩] 0
             l := dedupCloseAt [⟨0, 1, 2, 0, 3, 5⟩, ⟨30, 4, 5, 3, 4, 6⟩] 0
             c := dedupCloseAt [⟨0, 1, 2, 0, 3, 5⟩, ⟨30, 4, 5, 3, 4, 6⟩] 0
             v := 0 }]) :=
  ⟨⟨by decide, by decide, by decide, by decide, by decide⟩,
    clean_gap_fill_synthesizes_rows [⟨0, 1, 2, 0, 3, 5⟩, ⟨30, 4, 5, 3, 4, 6⟩] 10 0
      (by decide) (by decide) (by decide) (by decide) (by decide)⟩

/-! ### Claims about the scheduler and the fan-out -/

/-- Claim C3: for every registered handler list and every message,
`RPCManager.send_msg` invokes each handler's `send_msg` with that
message exactly once, in registration order, regardless of each
handler's outcome — in particular a handler that raises does not
interrupt delivery to the remaining handlers. -/
theorem send_msg_invokes_every_handler_once_in_order
    (handlers : List RPCHandlerM) (msg : Msg) :
    (RPCManager.send_msg handlers msg).map (fun i => (i.handler, i.msg))
      = handlers.map (fun handler => (handler.name, msg)) := by
  induction handlers with
  | nil => rfl
  | cons handler rest ih => simp [RPCManager.send_msg, ih]

/-- Claim C1, counterexample: when the RUNNING handler's body raises,
the one message delivered through the fan-out has type `'Exception'`
(the literal string `Worker.running` passes to `notify_status`), which
is neither the STATUS nor the WARNING message type — so the claim's
"delivers exactly one WARNING/STATUS message" fails as stated, even
though exactly one message is delivered and the state is forced to
STOPPED. -/
theorem worker_running_message_is_not_warning_or_status :
    (Worker.running (fun b => (b, some "boom"))
        { state := State.running, handlers := [], sent := [], log := [] }).sent
      = [{ type := "Exception", status := Worker.diagnostic "boom" }]
    ∧ "Exception" ≠ RPCMessageType.STATUS
    ∧ "Exception" ≠ RPCMessageType.WARNING
    ∧ (Worker.running (fun b => (b, some "boom"))
        { state := State.running, handlers := [], sent := [], log := [] }).state
      = State.stopped := by
  refine ⟨rfl, ?_, ?_, rfl⟩ <;> decide

/-- Claim C1, amended: whenever the RUNNING handler's body raises, the
guard in `Worker.running` catches the exception (it never propagates),
hands exactly one message — of type `'Exception'`, not WARNING/STATUS —
carrying the traceback diagnostic to the notification fan-out, and sets
the bot state to STOPPED; the body is not re-run. -/
theorem worker_running_fail_safe (update : BotM → BotM × Option String)
    (b b1 : BotM) (tb : String) (hupd : update b = (b1, some tb)) :
    Worker.running update b =
      { state := State.stopped
        handlers := b1.handlers
        sent := b1.sent ++ [{ type := "Exception", status := Worker.diagnostic tb }]
        log := b1.log ++ RPCManager.send_msg b1.handlers
          { type := "Exception", status := Worker.diagnostic tb } } := by
  unfold Worker.running
  rw [hupd]
  rfl

/-- Claim C1, witness: the fail-safe theorem applied to a concrete
always-raising handler body. -/
theorem worker_running_fail_safe_witness :
    (fun (b : BotM) => (b, some "tb"))
        { state := State.running, handlers := [], sent := [], log := [] }
      = ({ state := State.running, handlers := [], sent := [], log := [] }, some "tb")
    ∧ Worker.running (fun (b : BotM) => (b, some "tb"))
        { state := State.running, handlers := [], sent := [], log := [] }
      = { state := State.stopped
          handlers := []
          sent := [] ++ [{ type := "Exception", status := Worker.diagnostic "tb" }]
          log := [] ++ RPCManager.send_msg []
            { type := "Exception", status := Worker.diagnostic "tb" } } :=
  ⟨rfl, worker_running_fail_safe _ _ _ "tb" rfl⟩

/-- Claim C2 (code bug): for the source's `_throttle_secs = 60` and a
handler that returns immediately, `Worker._throttle` computes (and
prints) `sleep_duration = max(60 - elapsed, 0) = 60` exactly as the
claim's formula says — but it never calls `Worker._sleep`, so the wall
clock when `_throttle` returns equals the start time: the iteration
consumes `0 < 60` seconds, not the claimed minimum.  The spec-side
model `Worker.throttle_per_spec` shows what the claim requires:
returning at `start + 60`. -/
theorem worker_throttle_computes_sleep_but_never_sleeps (start_time : ℚ) :
    (Worker.throttle 60 0 start_time).sleep_duration = 60
    ∧ (Worker.throttle 60 0 start_time).endTime = start_time
    ∧ (Worker.throttle_per_spec 60 0 start_time).endTime = start_time + 60 := by
  refine ⟨?_, ?_, ?_⟩ <;> simp [Worker.throttle, Worker.throttle_per_spec]

/-! ### Association-list and orchestrator lemmas -/

theorem alookup_aset_self {K V : Type} [DecidableEq K] (m : List (K × V)) (k : K) (v : V) :
    alookup (aset m k v) k = some v := by
  induction m with
  | nil => simp [aset, alookup]
  | cons e rest ih =>
    obtain ⟨k', v'⟩ := e
    by_cases h : k = k'
    · simp [aset, alookup, h]
    · simp [aset, alookup, h, ih]

theorem alookup_aerase_self {K V : Type} [DecidableEq K] (m : List (K × V)) (k : K) :
    alookup (aerase m k) k = none := by
  induction m with
  | nil => rfl
  | cons e rest ih =>
    obtain ⟨k', v'⟩ := e
    by_cases h : k' = k
    · simpa [aerase, List.filter_cons, h] using ih
    · simpa [aerase, List.filter_cons, h, alookup, Ne.symm h] using ih

theorem timeframe_supported_seconds (timeframe : String)
    (htf : timeframe ∈ Exchange.timeframes) :
    timeframe = "1m" ∧ timeframe_to_seconds timeframe = 60
    ∨ timeframe = "5m" ∧ timeframe_to_seconds timeframe = 300 := by
  have h2 : timeframe = "1m" ∨ timeframe = "5m" := by
    simpa [Exchange.timeframes] using htf
  rcases h2 with rfl | rfl
  · exact Or.inl ⟨rfl, by decide⟩
  · exact Or.inr ⟨rfl, by decide⟩

theorem next_ts_eq_prev_add (timeframe : String) (nowMs : Int) :
    timeframe_to_next_ts timeframe nowMs
      = timeframe_to_prev_ts timeframe nowMs + timeframe_to_seconds timeframe := by
  unfold timeframe_to_next_ts timeframe_to_prev_ts
  obtain ⟨c, hc⟩ : (1000 : Int) ∣ (nowMs - nowMs % (timeframe_to_seconds timeframe * 1000)) := by
    have h1 : timeframe_to_seconds timeframe * 1000 ∣
        (nowMs - nowMs % (timeframe_to_seconds timeframe * 1000)) :=
      Int.dvd_of_emod_eq_zero (sub_emod_self_emod _ _)
    exact dvd_trans (Dvd.intro_left _ rfl) h1
  rw [hc, Int.add_ediv_of_dvd_left ⟨c, by ring⟩,
    Int.mul_ediv_cancel_left _ (by norm_num), Int.mul_ediv_cancel _ (by norm_num)]

theorem build_coroutine_uncached (st : ExchangeState) (pair timeframe : String)
    (ct : CandleType) (since_ms : Option Int) (nowMs : Int)
    (hmiss : alookup st.klines (pair, timeframe, ct) = none) :
    (Exchange.build_coroutine st pair timeframe ct since_ms true nowMs).1 = st
    ∧ (Exchange.build_coroutine st pair timeframe ct since_ms true nowMs).2.pair = pair
    ∧ (Exchange.build_coroutine st pair timeframe ct since_ms true nowMs).2.timeframe
        = timeframe
    ∧ (Exchange.build_coroutine st pair timeframe ct since_ms true nowMs).2.candle_type
        = ct := by
  unfold Exchange.build_coroutine
  dsimp only
  rw [hmiss]
  have hcond : ¬((true = true) ∧ (Option.isSome (none : Option (List Row)) = true)) := by
    simp
  rw [if_neg hcond]
  refine ⟨?_, ?_, ?_, ?_⟩ <;> (split <;> split <;> rfl)

theorem build_dl_jobs_singleton_fetch (st : ExchangeState) (pair timeframe : String)
    (ct : CandleType) (since_ms : Option Int) (cache : Bool) (nowMs : Int)
    (hgate : ¬(¬(timeframe ∈ Exchange.timeframes)
      ∧ (ct = CandleType.spot ∨ ct = CandleType.futures)))
    (hneed : cache = false ∨ (alookup st.klines (pair, timeframe, ct)).isNone = true
      ∨ Exchange.now_is_time_to_refresh st pair timeframe ct nowMs = true) :
    Exchange.build_ohlcv_dl_jobs st [(pair, timeframe, ct)] since_ms cache nowMs
      = ((Exchange.build_coroutine st pair timeframe ct since_ms cache nowMs).1,
         [(Exchange.build_coroutine st pair timeframe ct since_ms cache nowMs).2], []) := by
  unfold Exchange.build_ohlcv_dl_jobs
  rw [show [(pair, timeframe, ct)].eraseDups = [(pair, timeframe, ct)] from rfl]
  unfold Exchange.build_ohlcv_dl_jobs_go
  rw [if_neg hgate, if_pos hneed]
  rfl

theorem build_dl_jobs_singleton_cached (st : ExchangeState) (pair timeframe : String)
    (ct : CandleType) (since_ms : Option Int) (nowMs : Int)
    (hgate : ¬(¬(timeframe ∈ Exchange.timeframes)
      ∧ (ct = CandleType.spot ∨ ct = CandleType.futures)))
    (hsome : (alookup st.klines (pair, timeframe, ct)).isSome = true)
    (hfresh : Exchange.now_is_time_to_refresh st pair timeframe ct nowMs = false) :
    Exchange.build_ohlcv_dl_jobs st [(pair, timeframe, ct)] since_ms true nowMs
      = (st, [], [(pair, timeframe, ct)]) := by
  have hcond : ¬((true : Bool) = false
      ∨ (alookup st.klines (pair, timeframe, ct)).isNone = true
      ∨ Exchange.now_is_time_to_refresh st pair timeframe ct nowMs = true) := by
    push_neg
    refine ⟨by decide, ?_, by simp [hfresh]⟩
    intro hnone
    rw [Option.isNone_iff_eq_none] at hnone
    rw [hnone] at hsome
    simp at hsome
  unfold Exchange.build_ohlcv_dl_jobs
  rw [show [(pair, timeframe, ct)].eraseDups = [(pair, timeframe, ct)] from rfl]
  unfold Exchange.build_ohlcv_dl_jobs_go
  rw [if_neg hgate, if_neg hcond]
  rfl

theorem process_ohlcv_df_fresh (st : ExchangeState) (pair timeframe : String)
    (ct : CandleType) (ticks : List Row) (drop_incomplete : Bool)
    (hmiss : alookup st.klines (pair, timeframe, ct) = none) (hticks : ticks ≠ []) :
    Exchange.process_ohlcv_df st pair timeframe ct ticks true drop_incomplete
      = ({ klines := aset st.klines (pair, timeframe, ct)
            (ohlcv_to_dataframe ticks (timeframe_to_msecs timeframe) true drop_incomplete)
           pairs_last_refresh_time := aset st.pairs_last_refresh_time (pair, timeframe, ct)
            ((ticks.getD (if drop_incomplete = true ∧ ticks.length > 1
                then ticks.length - 2 else ticks.length - 1) default).date / 1000) },
         ohlcv_to_dataframe ticks (timeframe_to_msecs timeframe) true drop_incomplete) := by
  unfold Exchange.process_ohlcv_df
  dsimp only
  have hcond : ticks ≠ [] ∧ (true : Bool) = true := ⟨hticks, rfl⟩
  rw [if_pos hcond]
  dsimp only
  rw [hmiss]
  rfl

/-! ### Claims about the orchestrator -/

/-- Claim C10: a fetch that returned an empty candle list leaves the
per-key last-refresh map untouched — only a fetch with at least one
candle updates it — so the key's freshness test
(`_now_is_time_to_refresh`) gives the same verdict after the refresh as
before, and an empty-fetch key remains due at the next one. -/
theorem process_ohlcv_df_empty_keeps_last_refresh (st : ExchangeState)
    (pair timeframe : String) (c_type : CandleType) (cache drop_incomplete : Bool) :
    (Exchange.process_ohlcv_df st pair timeframe c_type [] cache
        drop_incomplete).1.pairs_last_refresh_time = st.pairs_last_refresh_time
    ∧ ∀ nowMs, Exchange.now_is_time_to_refresh
        (Exchange.process_ohlcv_df st pair timeframe c_type [] cache drop_incomplete).1
        pair timeframe c_type nowMs
      = Exchange.now_is_time_to_refresh st pair timeframe c_type nowMs := by
  have hplrt : (Exchange.process_ohlcv_df st pair timeframe c_type [] cache
      drop_incomplete).1.pairs_last_refresh_time = st.pairs_last_refresh_time := by
    unfold Exchange.process_ohlcv_df
    dsimp only
    have hcond : ¬(([] : List Row) ≠ [] ∧ cache = true) := fun hcon => hcon.1 rfl
    rw [if_neg hcond]
    split
    · split <;> rfl
    · rfl
  refine ⟨hplrt, fun nowMs => ?_⟩
  unfold Exchange.now_is_time_to_refresh
  dsimp only
  rw [hplrt]

/-- Claim C6: merging a successful fetch into an already-cached entry
stores (and returns) the trailing slice — at most the most recent
`N = ohlcv_candle_limit + startup_candle_count` rows — of the cleaned
concatenation of the old cached frame and the newly fetched one, so the
per-key cache size never exceeds `N` after a merge. -/
theorem process_ohlcv_df_merge_is_bounded (st : ExchangeState) (pair timeframe : String)
    (c_type : CandleType) (ticks : List Row) (drop_incomplete : Bool) (old : List Row)
    (hold : alookup st.klines (pair, timeframe, c_type) = some old) :
    ∃ stored,
      alookup (Exchange.process_ohlcv_df st pair timeframe c_type ticks true
          drop_incomplete).1.klines (pair, timeframe, c_type) = some stored
      ∧ (Exchange.process_ohlcv_df st pair timeframe c_type ticks true drop_incomplete).2
          = stored
      ∧ stored.length ≤ Exchange.ohlcv_candle_limit timeframe c_type
          + Exchange.startup_candle_count
      ∧ stored <:+ clean_ohlcv_dataframe
          (old ++ ohlcv_to_dataframe ticks (timeframe_to_msecs timeframe) true
            drop_incomplete)
          (timeframe_to_msecs timeframe) true false := by
  have hlen : ∀ (l : List Row) (n : Nat), (l.rtake n).length ≤ n := by
    intro l n
    rw [List.rtake]
    simp only [List.length_drop]
    omega
  have hsuf : ∀ (l : List Row) (n : Nat), l.rtake n <:+ l := by
    intro l n
    rw [List.rtake]
    exact List.drop_suffix _ _
  unfold Exchange.process_ohlcv_df
  dsimp only
  have hT : (true = true) := rfl
  by_cases hc : ticks ≠ [] ∧ (true : Bool) = true
  · rw [if_pos hc, if_pos hT]
    dsimp only
    rw [hold]
    exact ⟨_, alookup_aset_self _ _ _, rfl, hlen _ _, hsuf _ _⟩
  · rw [if_neg hc, if_pos hT]
    rw [hold]
    exact ⟨_, alookup_aset_self _ _ _, rfl, hlen _ _, hsuf _ _⟩

/-- Claim C6, witness: merging one fetched row into a one-row cached
entry for `("BTC/USDT", "5m", spot)`. -/
theorem process_ohlcv_df_merge_is_bounded_witness :
    alookup (ExchangeState.mk
        [((("BTC/USDT", "5m", CandleType.spot) : PairTF), [⟨0, 1, 1, 1, 1, 1⟩])] []).klines
      ("BTC/USDT", "5m", CandleType.spot) = some [⟨0, 1, 1, 1, 1, 1⟩]
    ∧ ∃ stored,
      alookup (Exchange.process_ohlcv_df (ExchangeState.mk
          [((("BTC/USDT", "5m", CandleType.spot) : PairTF), [⟨0, 1, 1, 1, 1, 1⟩])] [])
          "BTC/USDT" "5m" CandleType.spot [⟨300000, 2, 2, 2, 2, 2⟩] true
          false).1.klines ("BTC/USDT", "5m", CandleType.spot) = some stored
      ∧ (Exchange.process_ohlcv_df (ExchangeState.mk
          [((("BTC/USDT", "5m", CandleType.spot) : PairTF), [⟨0, 1, 1, 1, 1, 1⟩])] [])
          "BTC/USDT" "5m" CandleType.spot [⟨300000, 2, 2, 2, 2, 2⟩] true false).2 = stored
      ∧ stored.length ≤ Exchange.ohlcv_candle_limit "5m" CandleType.spot
          + Exchange.startup_candle_count
      ∧ stored <:+ clean_ohlcv_dataframe
          ([⟨0, 1, 1, 1, 1, 1⟩] ++ ohlcv_to_dataframe [⟨300000, 2, 2, 2, 2, 2⟩]
            (timeframe_to_msecs "5m") true false)
          (timeframe_to_msecs "5m") true false :=
  ⟨by decide, process_ohlcv_df_merge_is_bounded _ "BTC/USDT" "5m" CandleType.spot
    [⟨300000, 2, 2, 2, 2, 2⟩] false [⟨0, 1, 1, 1, 1, 1⟩] (by decide)⟩

theorem date_minus_candles_ts_supported (timeframe : String) (nowMs cnt : Int)
    (htf : timeframe ∈ Exchange.timeframes) :
    date_minus_candles_ts timeframe cnt nowMs
      = timeframe_to_prev_ts timeframe nowMs - timeframe_to_seconds timeframe * cnt := by
  unfold date_minus_candles_ts
  have hm60 : timeframe_to_minutes timeframe * 60 = timeframe_to_seconds timeframe := by
    rcases timeframe_supported_seconds timeframe htf with ⟨rfl, _⟩ | ⟨rfl, _⟩ <;> decide
  rw [hm60]

/-- Claim C5, counterexample: the code's `ohlcv_candle_limit` is `1`, so
the claim's premise "recorded last-closed older than `candleLimit - 5`
periods before now" means older than 4 periods *after* now and is
satisfied even by a perfectly fresh cache entry.  For such an entry
(`last refresh = the current candle's open`), `refreshAll([k])` with
`useCache` issues no fetch, deletes nothing, and serves `k` from cache —
contradicting the claimed eviction and full historic re-fetch. -/
theorem build_dl_jobs_fresh_key_not_evicted :
    ((alookup [((("BTC/USDT", "5m", CandleType.spot) : PairTF), (999999900 : Int))]
        (("BTC/USDT", "5m", CandleType.spot) : PairTF)).getD 0
      < date_minus_candles_ts "5m"
          ((Exchange.ohlcv_candle_limit "5m" CandleType.spot : Int) - 5) 1000000000000)
    ∧ Exchange.build_ohlcv_dl_jobs
        { klines := [(("BTC/USDT", "5m", CandleType.spot), [])]
          pairs_last_refresh_time := [(("BTC/USDT", "5m", CandleType.spot), 999999900)] }
        [("BTC/USDT", "5m", CandleType.spot)] none true 1000000000000
      = ({ klines := [(("BTC/USDT", "5m", CandleType.spot), [])]
           pairs_last_refresh_time := [(("BTC/USDT", "5m", CandleType.spot), 999999900)] },
         [], [("BTC/USDT", "5m", CandleType.spot)]) := by
  constructor
  · decide
  · decide

/-- Claim C5, amended: for every cached key whose recorded (nonnegative)
last-closed-period is stale enough that the key is due for refresh —
last-closed plus one interval strictly before the current candle's open,
which in particular puts it before the `candleLimit - 5` grid point of
the original claim — `refreshAll([k])` with `useCache` deletes `k`'s
cache entry entirely (time-jump eviction, forced by `candleLimit = 1`)
and issues a full historic (since-based, multi-page) fetch for `k`
instead of a single incremental fetch. -/
theorem build_dl_jobs_evicts_stale_key_and_fetches_historic (st : ExchangeState)
    (pair timeframe : String) (ct : CandleType) (nowMs : Int) (df : List Row)
    (htf : timeframe ∈ Exchange.timeframes)
    (hcached : alookup st.klines (pair, timeframe, ct) = some df)
    (hplr0 : 0 ≤ (alookup st.pairs_last_refresh_time (pair, timeframe, ct)).getD 0)
    (hdue : (alookup st.pairs_last_refresh_time (pair, timeframe, ct)).getD 0
        + timeframe_to_seconds timeframe < timeframe_to_prev_ts timeframe nowMs) :
    Exchange.build_ohlcv_dl_jobs st [(pair, timeframe, ct)] none true nowMs
      = ({ st with klines := aerase st.klines (pair, timeframe, ct) },
         [Job.historic pair timeframe ct (timeframe_to_prev_ts timeframe nowMs * 1000)],
         [])
    ∧ alookup (aerase st.klines (pair, timeframe, ct)) (pair, timeframe, ct) = none := by
  have hs_pos : 0 < timeframe_to_seconds timeframe := by
    rcases timeframe_supported_seconds timeframe htf with ⟨_, h⟩ | ⟨_, h⟩ <;> omega
  have hgate : ¬(¬(timeframe ∈ Exchange.timeframes)
      ∧ (ct = CandleType.spot ∨ ct = CandleType.futures)) := fun hcon => hcon.1 htf
  have hnow : Exchange.now_is_time_to_refresh st pair timeframe ct nowMs = true := by
    unfold Exchange.now_is_time_to_refresh
    dsimp only
    exact decide_eq_true hdue
  have hnotlt : ¬(date_minus_candles_ts timeframe
      ((Exchange.ohlcv_candle_limit timeframe ct : Int) - 5) nowMs
        < (alookup st.pairs_last_refresh_time (pair, timeframe, ct)).getD 0) := by
    rw [date_minus_candles_ts_supported timeframe nowMs _ htf,
      show ((Exchange.ohlcv_candle_limit timeframe ct : Int) - 5) = -4 by
        norm_num [Exchange.ohlcv_candle_limit]]
    have h4 : timeframe_to_seconds timeframe * (-4)
        = -(4 * timeframe_to_seconds timeframe) := by ring
    rw [h4]
    omega
  have hv : (timeframe_to_next_ts timeframe nowMs
      - timeframe_to_msecs timeframe * (Exchange.ohlcv_candle_limit timeframe ct : Int)
        * (Exchange.required_candle_call_count : Int) / 1000) * 1000
    = timeframe_to_prev_ts timeframe nowMs * 1000 := by
    rw [next_ts_eq_prev_add]
    rw [show timeframe_to_msecs timeframe * (Exchange.ohlcv_candle_limit timeframe ct : Int)
          * (Exchange.required_candle_call_count : Int)
        = timeframe_to_seconds timeframe * 1000 by
      norm_num [Exchange.ohlcv_candle_limit, Exchange.required_candle_call_count,
        timeframe_to_msecs]]
    rw [Int.mul_ediv_cancel _ (by norm_num)]
    ring
  have hvpos : 0 < timeframe_to_prev_ts timeframe nowMs * 1000 := by
    have : 0 < timeframe_to_prev_ts timeframe nowMs := by omega
    omega
  have hbc : Exchange.build_coroutine st pair timeframe ct none true nowMs
      = ({ st with klines := aerase st.klines (pair, timeframe, ct) },
         Job.historic pair timeframe ct (timeframe_to_prev_ts timeframe nowMs * 1000)) := by
    unfold Exchange.build_coroutine
    dsimp only
    rw [hcached]
    have hc1 : (true = true) ∧ (Option.isSome (some df) = true) := ⟨rfl, rfl⟩
    rw [if_pos hc1, if_neg hnotlt]
    dsimp only
    split
    · next htruthy =>
      split
      · next h2 =>
        rw [Option.getD_some, hv]
      · next h2 =>
        exfalso
        apply h2
        unfold sinceTruthy
        apply decide_eq_true
        rw [hv]
        omega
    · next hsm =>
      exfalso
      exact hsm (by decide)
  rw [build_dl_jobs_singleton_fetch st pair timeframe ct none true nowMs hgate
    (Or.inr (Or.inr hnow)), hbc]
  exact ⟨rfl, alookup_aerase_self _ _⟩

/-- Claim C5, witness: the eviction theorem applied to a concrete stale
entry (`last refresh = 0`, now far in the future). -/
theorem build_dl_jobs_evicts_stale_key_witness :
    ("5m" ∈ Exchange.timeframes
      ∧ alookup (ExchangeState.mk
          [((("BTC/USDT", "5m", CandleType.spot) : PairTF), [(⟨0, 1, 1, 1, 1, 1⟩ : Row)])]
          [((("BTC/USDT", "5m", CandleType.spot) : PairTF), (0 : Int))]).klines
        ("BTC/USDT", "5m", CandleType.spot) = some [⟨0, 1, 1, 1, 1, 1⟩]
      ∧ (0 : Int) ≤ (alookup (ExchangeState.mk
          [((("BTC/USDT", "5m", CandleType.spot) : PairTF), [(⟨0, 1, 1, 1, 1, 1⟩ : Row)])]
          [((("BTC/USDT", "5m", CandleType.spot) : PairTF), (0 : Int))]).pairs_last_refresh_time
          ("BTC/USDT", "5m", CandleType.spot)).getD 0
      ∧ (alookup (ExchangeState.mk
          [((("BTC/USDT", "5m", CandleType.spot) : PairTF), [(⟨0, 1, 1, 1, 1, 1⟩ : Row)])]
          [((("BTC/USDT", "5m", CandleType.spot) : PairTF), (0 : Int))]).pairs_last_refresh_time
          ("BTC/USDT", "5m", CandleType.spot)).getD 0 + timeframe_to_seconds "5m"
        < timeframe_to_prev_ts "5m" 1000000000000)
    ∧ Exchange.build_ohlcv_dl_jobs (ExchangeState.mk
        [((("BTC/USDT", "5m", CandleType.spot) : PairTF), [(⟨0, 1, 1, 1, 1, 1⟩ : Row)])]
        [((("BTC/USDT", "5m", CandleType.spot) : PairTF), (0 : Int))])
        [("BTC/USDT", "5m", CandleType.spot)] none true 1000000000000
      = ({ (ExchangeState.mk
            [((("BTC/USDT", "5m", CandleType.spot) : PairTF), [(⟨0, 1, 1, 1, 1, 1⟩ : Row)])]
            [((("BTC/USDT", "5m", CandleType.spot) : PairTF), (0 : Int))]) with
           klines := aerase [((("BTC/USDT", "5m", CandleType.spot) : PairTF),
              [(⟨0, 1, 1, 1, 1, 1⟩ : Row)])] ("BTC/USDT", "5m", CandleType.spot) },
         [Job.historic "BTC/USDT" "5m" CandleType.spot
            (timeframe_to_prev_ts "5m" 1000000000000 * 1000)], [])
      ∧ alookup (aerase [((("BTC/USDT", "5m", CandleType.spot) : PairTF),
          [(⟨0, 1, 1, 1, 1, 1⟩ : Row)])] ("BTC/USDT", "5m", CandleType.spot))
          ("BTC/USDT", "5m", CandleType.spot) = none :=
  ⟨⟨by decide, by decide, by decide, by decide⟩,
    build_dl_jobs_evicts_stale_key_and_fetches_historic _ "BTC/USDT" "5m" CandleType.spot
      1000000000000 [⟨0, 1, 1, 1, 1, 1⟩] (by decide) (by decide) (by decide) (by decide)⟩

/-- Claim C4: starting from a state where `k = (pair, timeframe, ct)`
is not cached, `refresh_latest_ohlcv([k])` with `cache = true` issues
exactly one fetch job, for `k`; if at the second call the recorded
last-closed period plus the interval still reaches the current candle's
open (`hfresh`), the second call issues no job, leaves the state
untouched, and returns exactly the cached frame stored by the first
call.  The fetch oracle returns `ticks` (nonempty) for every job. -/
theorem refresh_cache_hit_single_fetch (st : ExchangeState) (pair timeframe : String)
    (ct : CandleType) (ticks : List Row) (now1 now2 : Int) (r1 r2 : RefreshResult)
    (htf : timeframe ∈ Exchange.timeframes)
    (hmiss : alookup st.klines (pair, timeframe, ct) = none)
    (hticks : ticks ≠ [])
    (hfresh : timeframe_to_prev_ts timeframe now2
      ≤ (ticks.getD (if ticks.length > 1 then ticks.length - 2 else ticks.length - 1)
          default).date / 1000 + timeframe_to_seconds timeframe)
    (hr1 : r1 = Exchange.refresh_latest_ohlcv st [(pair, timeframe, ct)] none true none
        now1 (fun _ => Except.ok ticks))
    (hr2 : r2 = Exchange.refresh_latest_ohlcv r1.state [(pair, timeframe, ct)] none true
        none now2 (fun _ => Except.ok ticks)) :
    (∃ j, r1.jobs = [j] ∧ j.key = (pair, timeframe, ct))
    ∧ r2.jobs = []
    ∧ r2.state = r1.state
    ∧ r2.results = [((pair, timeframe, ct),
        ohlcv_to_dataframe ticks (timeframe_to_msecs timeframe) true true)]
    ∧ alookup r1.state.klines (pair, timeframe, ct)
        = some (ohlcv_to_dataframe ticks (timeframe_to_msecs timeframe) true true) := by
  obtain ⟨df, hdf⟩ :
      ∃ d, d = ohlcv_to_dataframe ticks (timeframe_to_msecs timeframe) true true := ⟨_, rfl⟩
  obtain ⟨L, hL⟩ : ∃ v, v = (ticks.getD
      (if ticks.length > 1 then ticks.length - 2 else ticks.length - 1) default).date / 1000 :=
    ⟨_, rfl⟩
  obtain ⟨st1, hst1⟩ : ∃ s, s = ExchangeState.mk
      (aset st.klines (pair, timeframe, ct) df)
      (aset st.pairs_last_refresh_time (pair, timeframe, ct) L) := ⟨_, rfl⟩
  rw [← hdf]
  rw [← hL] at hfresh
  have hgate : ¬(¬(timeframe ∈ Exchange.timeframes)
      ∧ (ct = CandleType.spot ∨ ct = CandleType.futures)) := fun hcon => hcon.1 htf
  obtain ⟨hbc_st, hbc_pair, hbc_tf, hbc_ct⟩ :=
    build_coroutine_uncached st pair timeframe ct none now1 hmiss
  set j1 := (Exchange.build_coroutine st pair timeframe ct none true now1).2 with hj1
  have hneed1 : (true : Bool) = false
      ∨ (alookup st.klines (pair, timeframe, ct)).isNone = true
      ∨ Exchange.now_is_time_to_refresh st pair timeframe ct now1 = true :=
    Or.inr (Or.inl (by rw [hmiss]; rfl))
  have hjobs1 := build_dl_jobs_singleton_fetch st pair timeframe ct none true now1
    hgate hneed1
  have hkey1 : j1.key = (pair, timeframe, ct) := by
    unfold Job.key
    rw [hbc_pair, hbc_tf, hbc_ct]
  have hidx : (if true = true ∧ ticks.length > 1 then ticks.length - 2
      else ticks.length - 1) = (if ticks.length > 1 then ticks.length - 2
      else ticks.length - 1) := by
    simp
  have hrun1 : Exchange.run_jobs (fun _ => Except.ok ticks) true none st [] [j1]
      = (st1, [((pair, timeframe, ct), df)]) := by
    unfold Exchange.run_jobs
    dsimp only
    rw [hbc_pair, hbc_tf, hbc_ct]
    rw [show ((none : Option Bool).getD Exchange.ohlcv_partial_candle) = true from rfl]
    rw [process_ohlcv_df_fresh st pair timeframe ct ticks true hmiss hticks]
    dsimp only
    unfold Exchange.run_jobs
    rw [hidx, ← hL, ← hdf, ← hst1, hkey1]
    rfl
  have hr1state : r1.state = st1 := by
    rw [hr1]
    unfold Exchange.refresh_latest_ohlcv
    dsimp only
    rw [hjobs1]
    dsimp only
    rw [hbc_st, hrun1]
  have hr1jobs : r1.jobs = [j1] := by
    rw [hr1]
    unfold Exchange.refresh_latest_ohlcv
    dsimp only
    rw [hjobs1]
  have hlook1 : alookup r1.state.klines (pair, timeframe, ct) = some df := by
    rw [hr1state, hst1]
    exact alookup_aset_self _ _ _
  have hsome2 : (alookup r1.state.klines (pair, timeframe, ct)).isSome = true := by
    rw [hlook1]
    rfl
  have hfresh2 : Exchange.now_is_time_to_refresh r1.state pair timeframe ct now2
      = false := by
    unfold Exchange.now_is_time_to_refresh
    dsimp only
    rw [hr1state, hst1]
    dsimp only
    rw [alookup_aset_self]
    simp only [Option.getD_some]
    exact decide_eq_false (not_lt.mpr hfresh)
  have hjobs2 := build_dl_jobs_singleton_cached r1.state pair timeframe ct none now2
    hgate hsome2 hfresh2
  have hr2eval : Exchange.refresh_latest_ohlcv r1.state [(pair, timeframe, ct)] none
      true none now2 (fun _ => Except.ok ticks)
    = ⟨r1.state, [((pair, timeframe, ct), df)], []⟩ := by
    unfold Exchange.refresh_latest_ohlcv
    dsimp only
    rw [hjobs2]
    dsimp only
    unfold Exchange.run_jobs
    dsimp only [List.foldl_cons, List.foldl_nil]
    rw [hlook1]
    rfl
  rw [hr2, hr2eval]
  exact ⟨⟨j1, hr1jobs, hkey1⟩, rfl, rfl, rfl, hlook1⟩

/-- Claim C4, witness: the cache-hit theorem applied to an empty
starting state, a one-candle fetch result and two calls within the same
5-minute candle. -/
theorem refresh_cache_hit_single_fetch_witness :
    ("5m" ∈ Exchange.timeframes
      ∧ alookup (ExchangeState.mk [] []).klines ("BTC/USDT", "5m", CandleType.spot) = none
      ∧ ([(⟨1000000000000, 1, 1, 1, 1, 1⟩ : Row)] : List Row) ≠ []
      ∧ timeframe_to_prev_ts "5m" 1000000000000
        ≤ (([(⟨1000000000000, 1, 1, 1, 1, 1⟩ : Row)] : List Row).getD
            (if ([(⟨1000000000000, 1, 1, 1, 1, 1⟩ : Row)] : List Row).length > 1
              then ([(⟨1000000000000, 1, 1, 1, 1, 1⟩ : Row)] : List Row).length - 2
              else ([(⟨1000000000000, 1, 1, 1, 1, 1⟩ : Row)] : List Row).length - 1)
            default).date / 1000 + timeframe_to_seconds "5m")
    ∧ ((∃ j, (Exchange.refresh_latest_ohlcv (ExchangeState.mk [] [])
          [("BTC/USDT", "5m", CandleType.spot)] none true none 1000000000000
          (fun _ => Except.ok [⟨1000000000000, 1, 1, 1, 1, 1⟩])).jobs = [j]
        ∧ j.key = ("BTC/USDT", "5m", CandleType.spot))
      ∧ (Exchange.refresh_latest_ohlcv (Exchange.refresh_latest_ohlcv
            (ExchangeState.mk [] []) [("BTC/USDT", "5m", CandleType.spot)] none true none
            1000000000000 (fun _ => Except.ok [⟨1000000000000, 1, 1, 1, 1, 1⟩])).state
          [("BTC/USDT", "5m", CandleType.spot)] none true none 1000000000000
          (fun _ => Except.ok [⟨1000000000000, 1, 1, 1, 1, 1⟩])).jobs = []
      ∧ (Exchange.refresh_latest_ohlcv (Exchange.refresh_latest_ohlcv
            (ExchangeState.mk [] []) [("BTC/USDT", "5m", CandleType.spot)] none true none
            1000000000000 (fun _ => Except.ok [⟨1000000000000, 1, 1, 1, 1, 1⟩])).state
          [("BTC/USDT", "5m", CandleType.spot)] none true none 1000000000000
          (fun _ => Except.ok [⟨1000000000000, 1, 1, 1, 1, 1⟩])).state
        = (Exchange.refresh_latest_ohlcv (ExchangeState.mk [] [])
            [("BTC/USDT", "5m", CandleType.spot)] none true none 1000000000000
            (fun _ => Except.ok [⟨1000000000000, 1, 1, 1, 1, 1⟩])).state
      ∧ (Exchange.refresh_latest_ohlcv (Exchange.refresh_latest_ohlcv
            (ExchangeState.mk [] []) [("BTC/USDT", "5m", CandleType.spot)] none true none
            1000000000000 (fun _ => Except.ok [⟨1000000000000, 1, 1, 1, 1, 1⟩])).state
          [("BTC/USDT", "5m", CandleType.spot)] none true none 1000000000000
          (fun _ => Except.ok [⟨1000000000000, 1, 1, 1, 1, 1⟩])).results
        = [(("BTC/USDT", "5m", CandleType.spot),
            ohlcv_to_dataframe [⟨1000000000000, 1, 1, 1, 1, 1⟩]
              (timeframe_to_msecs "5m") true true)]
      ∧ alookup (Exchange.refresh_latest_ohlcv (ExchangeState.mk [] [])
            [("BTC/USDT", "5m", CandleType.spot)] none true none 1000000000000
            (fun _ => Except.ok [⟨1000000000000, 1, 1, 1, 1, 1⟩])).state.klines
          ("BTC/USDT", "5m", CandleType.spot)
        = some (ohlcv_to_dataframe [⟨1000000000000, 1, 1, 1, 1, 1⟩]
            (timeframe_to_msecs "5m") true true)) :=
  ⟨⟨by decide, by decide, by decide, by decide⟩,
    refresh_cache_hit_single_fetch (ExchangeState.mk [] []) "BTC/USDT" "5m"
      CandleType.spot [⟨1000000000000, 1, 1, 1, 1, 1⟩] 1000000000000 1000000000000 _ _
      (by decide) (by decide) (by decide) (by decide) rfl rfl⟩

end FastTraders
